import Mathlib

/-!
# Verification of the command-log buffer subsystem (cmdlogbuf.c)

A shallow embedding of `src/engines/default/cmdlogbuf.c`.  The concurrent C
code is modelled sequentially: every public operation is a function on an
explicit global state (`LogState`); lock-protected critical sections become
atomic state transformations.  C `assert`s abort the process, so operations
that can hit an assert return `Option`, with `none` standing for "no
observable resulting state" (abort or inexhaustible retry loop, which we cut
with fuel).  File descriptors keep the C sentinel `-1 : Int`.  Disk writes
always transfer all bytes and fsync succeeds (the C code aborts otherwise);
file contents are tracked only by size, which is all the claims need.
-/

/-- `CMDLOG_BUFFER_SIZE` (100 MB). -/
def CMDLOG_BUFFER_SIZE : Nat := 100 * 1024 * 1024

/-- `CMDLOG_FLUSH_AUTO_SIZE` (32 KB). -/
def CMDLOG_FLUSH_AUTO_SIZE : Nat := 32 * 1024

/-- `CMDLOG_RECORD_MIN_SIZE` (8 bytes header + 8 bytes body). -/
def CMDLOG_RECORD_MIN_SIZE : Nat := 16

/-- Size of `LogHdr`.  The codec header type lives outside this file's source;
the source comment at `CMDLOG_RECORD_MIN_SIZE` fixes it: "8 bytes header". -/
def sizeofLogHdr : Nat := 8

/-- `LogSN`: a `(filenum, roffset)` log sequence number. -/
structure LogSN where
  filenum : Nat
  roffset : Nat
deriving DecidableEq, Repr

/-- Modelled from the spec: `LOGSN_IS_LE` from `cmdlogbuf.h` (header not under
`src/`); the spec states LSNs are "totally ordered lexicographically". -/
def logsnLE (a b : LogSN) : Bool :=
  decide (a.filenum < b.filenum) ||
    (decide (a.filenum = b.filenum) && decide (a.roffset ≤ b.roffset))

/-- Modelled from the spec: `LOGSN_IS_GT` from `cmdlogbuf.h` (header not under
`src/`); strict lexicographic greater-than. -/
def logsnGT (a b : LogSN) : Bool :=
  decide (b.filenum < a.filenum) ||
    (decide (a.filenum = b.filenum) && decide (b.roffset < a.roffset))

/-- `log_FSTATE`: one log file slot (`fd == -1` means absent). -/
structure FState where
  fd : Int
  fsync_ongoing : Bool
  size : Nat
deriving DecidableEq, Repr

/-- `log_FREQ`: one flush-request queue slot. -/
structure FReq where
  nflush : Nat
  dual_write : Bool
deriving DecidableEq, Repr

/-- The mutable global state of the subsystem (`log_global` with
`log_FILE` and `log_BUFFER` inlined; the byte array `data` itself is not
modelled, only the index structure over it). -/
structure LogState where
  size : Nat
  head : Nat
  tail : Nat
  last : Int
  fque : Nat → FReq
  fqsz : Nat
  fbgn : Nat
  fend : Nat
  dw_end : Int
  curr : FState
  next : FState
  nxt_write_lsn : LogSN
  nxt_flush_lsn : LogSN
  nxt_fsync_lsn : LogSN

/-- `if ((++i) == fqsz) i = 0` — ring increment of a queue index. -/
def fqIncr (fqsz i : Nat) : Nat :=
  if i + 1 = fqsz then 0 else i + 1

/-- Pointwise update of the flush-request queue. -/
def fqueSet (f : Nat → FReq) (i : Nat) (v : FReq) : Nat → FReq :=
  fun j => if j = i then v else f j

/-- `do_log_file_write`: append `nbytes` to `curr` (asserts `curr.fd != -1`),
and also to `next` when `dual_write` is set and `next.fd` is present.
Returns the list of descriptors written to.  The byte transfer itself always
succeeds in full (the C code aborts otherwise). -/
def doLogFileWrite (nbytes : Nat) (dual_write : Bool) (s : LogState) :
    Option (LogState × List Int) :=
  if s.curr.fd = -1 then none
  else
    let s1 : LogState := { s with curr := { s.curr with size := s.curr.size + nbytes } }
    if dual_write ∧ s1.next.fd ≠ -1 then
      some ({ s1 with next := { s1.next with size := s1.next.size + nbytes } },
            [s.curr.fd, s.next.fd])
    else
      some (s1, [s.curr.fd])

/-- Lines 240-243 of `do_log_buff_flush`: when `fbgn` has reached the
dual-write boundary, reset `dw_end` (the flush-LSN filenum bump is applied
separately, keyed on the same condition). -/
def flushBoundary (s0 : LogState) : LogState :=
  if (s0.fbgn : Int) = s0.dw_end then { s0 with dw_end := -1 } else s0

/-- Lines 244-254 of `do_log_buff_flush`: select the flush work item.
Returns `(nflush, dual_write, state)`; `none` models `assert(nflush > 0)`. -/
def flushSelect (flush_all : Bool) (s1 : LogState) : Option (Nat × Bool × LogState) :=
  if s1.fbgn ≠ s1.fend then
    if (s1.fque s1.fbgn).nflush = 0 then none
    else some ((s1.fque s1.fbgn).nflush, (s1.fque s1.fbgn).dual_write, s1)
  else if flush_all ∧ 0 < (s1.fque s1.fend).nflush then
    some ((s1.fque s1.fend).nflush, (s1.fque s1.fend).dual_write,
          { s1 with fend := fqIncr s1.fqsz s1.fend })
  else
    some (0, false, s1)

/-- `if (head == last) { last = -1; head = 0; }` — wrap reclamation. -/
def flushReclaim (s : LogState) : LogState :=
  if (s.head : Int) = s.last then { s with last := -1, head := 0 } else s

/-- Lines 263-268: bump `nxt_flush_lsn.filenum`, reset its `roffset`. -/
def flushFilenumBump (s : LogState) : LogState :=
  { s with nxt_flush_lsn := ⟨s.nxt_flush_lsn.filenum + 1, 0⟩ }

/-- Lines 282-298 of `do_log_buff_flush`: advance `nxt_flush_lsn.roffset`,
advance `head` (reclaiming the wrap), clear the consumed slot, advance
`fbgn`. -/
def flushConsume (nflush : Nat) (s5 : LogState) : LogState :=
  let s6 : LogState :=
    { s5 with nxt_flush_lsn := ⟨s5.nxt_flush_lsn.filenum, s5.nxt_flush_lsn.roffset + nflush⟩ }
  let s7 : LogState := { s6 with head := s6.head + nflush }
  let s8 : LogState := flushReclaim s7
  { s8 with fque := fqueSet s8.fque s8.fbgn ⟨0, false⟩, fbgn := fqIncr s8.fqsz s8.fbgn }

/-- `do_log_buff_flush`: one flush step.  Returns the flushed byte count, the
list of file descriptors written to, and the new state.  `none` models an
assert failure (`nflush > 0` on a selected slot, or `curr.fd != -1` in
`do_log_file_write`).  The cleanup test and the boundary test are latched
from the entry state `s0` (`cleanup_process`, `next_fhlsn_flag`). -/
def doLogBuffFlush (flush_all : Bool) (s0 : LogState) : Option (Nat × List Int × LogState) :=
  match flushSelect flush_all (flushBoundary s0) with
  | none => none
  | some (nflush, dual_write_flag, s2) =>
    let s3 : LogState := if 0 < nflush then flushReclaim s2 else s2
    let s4 : LogState := if (s0.fbgn : Int) = s0.dw_end then flushFilenumBump s3 else s3
    if nflush = 0 then some (0, [], s4)
    else
      match (if s0.dw_end ≠ -1 then
               (if dual_write_flag then doLogFileWrite nflush false s4 else some (s4, []))
             else doLogFileWrite nflush dual_write_flag s4) with
      | none => none
      | some (s5, written) => some (nflush, written, flushConsume nflush s5)

/-- One iteration of the space-search loop in `do_log_buff_write` (lines
317-342 up to the flush fallback).  Returns the possibly mutated state and
whether a contiguous region of `total_length` bytes was acquired at `tail`.
`none` models the `last`-consistency asserts. -/
def tryAcquire (total_length : Nat) (s : LogState) : Option (LogState × Bool) :=
  if s.head ≤ s.tail then
    if s.last ≠ -1 then none   -- assert(logbuff->last == -1)
    else if total_length < s.size - s.tail then some (s, true)
    else if 0 < s.head then
      let fend1 : Nat :=
        if 0 < (s.fque s.fend).nflush then fqIncr s.fqsz s.fend else s.fend
      let s1 : LogState := { s with last := (s.tail : Int), tail := 0, fend := fend1 }
      if total_length < s1.head then some (s1, true) else some (s1, false)
    else some (s, false)
  else
    if s.last = -1 then none   -- assert(logbuff->last != -1)
    else if total_length < s.head - s.tail then some (s, true) else some (s, false)

/-- The full space-search loop: acquire, or force a non-exhaustive flush and
retry.  Fuel cuts the (in C unbounded) retry loop. -/
def acquireLoop : Nat → Nat → LogState → Option LogState
  | 0, _, _ => none
  | fuel + 1, total_length, s =>
    match tryAcquire total_length s with
    | none => none
    | some (s1, true) => some s1
    | some (s1, false) =>
      match doLogBuffFlush false s1 with
      | none => none
      | some (_, _, s2) => acquireLoop fuel total_length s2

/-- Close the tail flush slot if its `dual_write` flag differs from the new
record's (lines 359-362). -/
def flagClose (dual_write : Bool) (s : LogState) : LogState :=
  if 0 < (s.fque s.fend).nflush ∧ (s.fque s.fend).dual_write ≠ dual_write then
    { s with fend := fqIncr s.fqsz s.fend }
  else s

/-- The flush-request append loop (lines 363-374): distribute `total_length`
bytes over queue slots of at most `CMDLOG_FLUSH_AUTO_SIZE` each.  Fuel cuts
the loop, which in C can only fail to progress on a corrupted queue. -/
def appendLoop : Nat → Nat → Bool → LogState → Option LogState
  | 0, total_length, _, s => if total_length = 0 then some s else none
  | fuel + 1, total_length, dual_write, s =>
    if total_length = 0 then some s
    else
      let spare0 := CMDLOG_FLUSH_AUTO_SIZE - (s.fque s.fend).nflush
      let spare := if total_length ≤ spare0 then total_length else spare0
      let nf := (s.fque s.fend).nflush + spare
      let s1 : LogState := { s with fque := fqueSet s.fque s.fend ⟨nf, dual_write⟩ }
      let s2 : LogState :=
        if nf = CMDLOG_FLUSH_AUTO_SIZE then { s1 with fend := fqIncr s1.fqsz s1.fend } else s1
      appendLoop fuel (total_length - spare) dual_write s2

/-- Lines 351-356 of `do_log_buff_write`: the record occupies
`[tail, tail + total_length)`; advance `tail` and `nxt_write_lsn.roffset`. -/
def writeCommit (total_length : Nat) (s1 : LogState) : LogState :=
  { s1 with tail := s1.tail + total_length,
            nxt_write_lsn :=
              ⟨s1.nxt_write_lsn.filenum, s1.nxt_write_lsn.roffset + total_length⟩ }

/-- `do_log_buff_write` (= `log_record_write`): write one record of
`body_length` body bytes.  Returns the new state and the LSN stamped into the
waiter (the entry value of `nxt_write_lsn`).  `none` models an assert failure
or an inexhaustible retry loop. -/
def doLogBuffWrite (fuel body_length : Nat) (dual_write : Bool) (s : LogState) :
    Option (LogState × LogSN) :=
  let total_length := sizeofLogHdr + body_length
  if total_length < s.size then
    match acquireLoop fuel total_length s with
    | none => none
    | some s1 =>
      let s3 := flagClose dual_write (writeCommit total_length s1)
      match appendLoop (total_length + s3.fqsz + 2) total_length dual_write s3 with
      | none => none
      | some s4 => some (s4, s.nxt_write_lsn)
  else none   -- assert(total_length < logbuff->size)

/-- `log_buffer_flush`: loop flushing with `flush_all = true` until
`nxt_flush_lsn > upto_lsn`.  `none` models the `assert(nflush > 0)` (or an
assert inside the flush itself, or fuel exhaustion). -/
def logBufferFlush : Nat → LogSN → LogState → Option LogState
  | 0, _, _ => none
  | fuel + 1, upto_lsn, s =>
    if logsnLE s.nxt_flush_lsn upto_lsn then
      match doLogBuffFlush true s with
      | none => none
      | some (nflush, _, s1) =>
        if nflush = 0 then none   -- assert(nflush > 0)
        else if logsnGT s1.nxt_flush_lsn upto_lsn then some s1
        else logBufferFlush fuel upto_lsn s1
    else some s

/-- `log_file_sync`: snapshot `nxt_flush_lsn`, mark the fds fsync-ongoing,
fsync, install the snapshot as `nxt_fsync_lsn`, then clear the flags (in the
sequential model the fds are never retired mid-call, so the close branches
collapse to flag clearing; they are kept verbatim).  `none` models
`assert(fd != -1)`. -/
def logFileSync (s0 : LogState) : Option LogState :=
  let now_flush_lsn := s0.nxt_flush_lsn
  let fd := s0.curr.fd
  let next_fd := s0.next.fd
  let s1 : LogState := { s0 with curr := { s0.curr with fsync_ongoing := true } }
  let s2 : LogState :=
    if next_fd ≠ -1 then { s1 with next := { s1.next with fsync_ongoing := true } } else s1
  if fd = -1 then none
  else
    let s3 : LogState := { s2 with nxt_fsync_lsn := now_flush_lsn }
    let s4 : LogState :=
      if fd = s3.curr.fd then { s3 with curr := { s3.curr with fsync_ongoing := false } }
      else s3
    let s5 : LogState :=
      if next_fd ≠ -1 then
        if next_fd = s4.curr.fd then
          { s4 with curr := { s4.curr with fsync_ongoing := false } }
        else if next_fd = s4.next.fd then
          { s4 with next := { s4.next with fsync_ongoing := false } }
        else s4
      else s4
    some s5

/-- Clear the `dual_write` flag on every slot from `fbgn` up to the first
empty slot (`cmdlog_complete_dual_write`, failure branch).  Fuel cuts the
walk, which in C can only fail to stop on a fully non-empty (corrupt) ring. -/
def clearDualLoop : Nat → Nat → (Nat → FReq) → Nat → Option (Nat → FReq)
  | 0, _, _, _ => none
  | fuel + 1, fqsz, f, index =>
    if 0 < (f index).nflush then
      clearDualLoop fuel fqsz (fqueSet f index ⟨(f index).nflush, false⟩) (fqIncr fqsz index)
    else some f

/-- `cmdlog_complete_dual_write`.  Returns the new state and the descriptor
closed immediately, if any.  `none` models `assert(dw_end == -1)` (success
path) or a non-terminating queue walk (failure path). -/
def cmdlogCompleteDualWrite (success : Bool) (s : LogState) :
    Option (LogState × Option Int) :=
  if s.next.fd = -1 then some (s, none)
  else if success then
    if s.dw_end ≠ -1 then none   -- assert(logbuff->dw_end == -1)
    else
      let fend1 : Nat :=
        if 0 < (s.fque s.fend).nflush then fqIncr s.fqsz s.fend else s.fend
      let s1 : LogState :=
        { s with fend := fend1, dw_end := (fend1 : Int),
                 nxt_write_lsn := ⟨s.nxt_write_lsn.filenum + 1, 0⟩ }
      let prev_fd := s1.curr.fd
      let prev_fsync_ongoing := s1.curr.fsync_ongoing
      let s2 : LogState := { s1 with curr := s1.next, next := ⟨-1, false, 0⟩ }
      if prev_fd ≠ -1 ∧ ¬prev_fsync_ongoing then some (s2, some prev_fd)
      else some (s2, none)
  else
    match clearDualLoop (s.fqsz + 1) s.fqsz s.fque s.fbgn with
    | none => none
    | some f1 =>
      let prev_fd := s.next.fd
      let prev_fsync_ongoing := s.next.fsync_ongoing
      let s1 : LogState := { s with fque := f1, next := ⟨-1, false, 0⟩ }
      if prev_fd ≠ -1 ∧ ¬prev_fsync_ongoing then some (s1, some prev_fd)
      else some (s1, none)

/-- `cmdlog_file_prepare`: install an opened descriptor into `curr` (first
time) or `next` (rotation).  The `open` call is external; its result is the
`fd` argument (negative = failure, state unchanged). -/
def cmdlogFilePrepare (fd : Int) (s : LogState) : LogState :=
  if fd < 0 then s
  else if s.curr.fd = -1 then { s with curr := ⟨fd, false, 0⟩ }
  else { s with next := ⟨fd, false, 0⟩ }

/-- `cmdlog_buf_init`: the initial state. -/
def cmdlogBufInit : LogState :=
  { size := CMDLOG_BUFFER_SIZE
    head := 0
    tail := 0
    last := -1
    fque := fun _ => ⟨0, false⟩
    fqsz := CMDLOG_BUFFER_SIZE / CMDLOG_RECORD_MIN_SIZE
    fbgn := 0
    fend := 0
    dw_end := -1
    curr := ⟨-1, false, 0⟩
    next := ⟨-1, false, 0⟩
    nxt_write_lsn := ⟨1, 0⟩
    nxt_flush_lsn := ⟨1, 0⟩
    nxt_fsync_lsn := ⟨1, 0⟩ }

/-! ## Order lemmas for `LogSN` -/

/-- The lexicographic order as a proposition. -/
def LogSN.le (a b : LogSN) : Prop :=
  a.filenum < b.filenum ∨ (a.filenum = b.filenum ∧ a.roffset ≤ b.roffset)

theorem logsnLE_iff {a b : LogSN} : logsnLE a b = true ↔ LogSN.le a b := by
  simp [logsnLE, LogSN.le]

theorem logsnGT_iff_not_le {a b : LogSN} : logsnGT a b = true ↔ ¬ LogSN.le a b := by
  simp [logsnGT, LogSN.le]
  omega

theorem LogSN.le_refl (a : LogSN) : LogSN.le a a := Or.inr ⟨rfl, Nat.le_refl _⟩

theorem LogSN.le_trans {a b c : LogSN} (h1 : LogSN.le a b) (h2 : LogSN.le b c) :
    LogSN.le a c := by
  rcases h1 with h1 | ⟨h1, h1'⟩ <;> rcases h2 with h2 | ⟨h2, h2'⟩ <;>
    simp [LogSN.le] <;> omega

/-! ## Branch characterization of the flush stages -/

theorem flushBoundary_cases (s : LogState) :
    ((s.fbgn : Int) = s.dw_end ∧ flushBoundary s = { s with dw_end := -1 }) ∨
    ((s.fbgn : Int) ≠ s.dw_end ∧ flushBoundary s = s) := by
  unfold flushBoundary
  split <;> simp_all

theorem flushSelect_cases {a : Bool} {s : LogState} {n : Nat} {d : Bool} {s2 : LogState}
    (h : flushSelect a s = some (n, d, s2)) :
    (s.fbgn ≠ s.fend ∧ 0 < (s.fque s.fbgn).nflush ∧
      n = (s.fque s.fbgn).nflush ∧ d = (s.fque s.fbgn).dual_write ∧ s2 = s) ∨
    (s.fbgn = s.fend ∧ (a = true ∧ 0 < (s.fque s.fend).nflush) ∧
      n = (s.fque s.fend).nflush ∧ d = (s.fque s.fend).dual_write ∧
      s2 = { s with fend := fqIncr s.fqsz s.fend }) ∨
    (s.fbgn = s.fend ∧ ¬ (a = true ∧ 0 < (s.fque s.fend).nflush) ∧
      n = 0 ∧ d = false ∧ s2 = s) := by
  unfold flushSelect at h
  split at h
  · split at h
    · exact absurd h (by simp)
    · left
      simp only [Option.some.injEq, Prod.mk.injEq] at h
      obtain ⟨h1, h2, h3⟩ := h
      exact ⟨by assumption, by omega, h1.symm, h2.symm, h3.symm⟩
  · split at h <;>
    · simp only [Option.some.injEq, Prod.mk.injEq] at h
      obtain ⟨h1, h2, h3⟩ := h
      simp_all <;> omega


theorem doLogFileWrite_cases {n : Nat} {d : Bool} {s s' : LogState} {w : List Int}
    (h : doLogFileWrite n d s = some (s', w)) :
    s.curr.fd ≠ -1 ∧
    ((d = true ∧ s.next.fd ≠ -1 ∧
        s' = { s with curr := { s.curr with size := s.curr.size + n },
                      next := { s.next with size := s.next.size + n } } ∧
        w = [s.curr.fd, s.next.fd]) ∨
      (¬ (d = true ∧ s.next.fd ≠ -1) ∧
        s' = { s with curr := { s.curr with size := s.curr.size + n } } ∧
        w = [s.curr.fd])) := by
  unfold doLogFileWrite at h
  split at h
  · exact absurd h (by simp)
  · simp only [] at h
    refine ⟨by assumption, ?_⟩
    split at h
    · rename_i hc
      left
      simp only [Option.some.injEq, Prod.mk.injEq] at h
      exact ⟨hc.1, hc.2, h.1.symm, h.2.symm⟩
    · rename_i hc
      right
      simp only [Option.some.injEq, Prod.mk.injEq] at h
      exact ⟨hc, h.1.symm, h.2.symm⟩

theorem flushReclaim_cases (s : LogState) :
    ((s.head : Int) = s.last ∧ flushReclaim s = { s with last := -1, head := 0 }) ∨
    ((s.head : Int) ≠ s.last ∧ flushReclaim s = s) := by
  unfold flushReclaim
  split <;> simp_all

theorem flushReclaim_frame (s : LogState) :
    (flushReclaim s).size = s.size ∧ (flushReclaim s).tail = s.tail ∧
    (flushReclaim s).fque = s.fque ∧ (flushReclaim s).fqsz = s.fqsz ∧
    (flushReclaim s).fbgn = s.fbgn ∧ (flushReclaim s).fend = s.fend ∧
    (flushReclaim s).dw_end = s.dw_end ∧ (flushReclaim s).curr = s.curr ∧
    (flushReclaim s).next = s.next ∧
    (flushReclaim s).nxt_write_lsn = s.nxt_write_lsn ∧
    (flushReclaim s).nxt_flush_lsn = s.nxt_flush_lsn ∧
    (flushReclaim s).nxt_fsync_lsn = s.nxt_fsync_lsn := by
  unfold flushReclaim
  split <;> simp

theorem flushFilenumBump_frame (s : LogState) :
    (flushFilenumBump s).size = s.size ∧ (flushFilenumBump s).head = s.head ∧
    (flushFilenumBump s).tail = s.tail ∧ (flushFilenumBump s).last = s.last ∧
    (flushFilenumBump s).fque = s.fque ∧ (flushFilenumBump s).fqsz = s.fqsz ∧
    (flushFilenumBump s).fbgn = s.fbgn ∧ (flushFilenumBump s).fend = s.fend ∧
    (flushFilenumBump s).dw_end = s.dw_end ∧ (flushFilenumBump s).curr = s.curr ∧
    (flushFilenumBump s).next = s.next ∧
    (flushFilenumBump s).nxt_write_lsn = s.nxt_write_lsn ∧
    (flushFilenumBump s).nxt_fsync_lsn = s.nxt_fsync_lsn ∧
    (flushFilenumBump s).nxt_flush_lsn = ⟨s.nxt_flush_lsn.filenum + 1, 0⟩ := by
  unfold flushFilenumBump
  simp

theorem flushConsume_frame (n : Nat) (s : LogState) :
    (flushConsume n s).size = s.size ∧ (flushConsume n s).tail = s.tail ∧
    (flushConsume n s).fqsz = s.fqsz ∧ (flushConsume n s).fend = s.fend ∧
    (flushConsume n s).dw_end = s.dw_end ∧ (flushConsume n s).curr = s.curr ∧
    (flushConsume n s).next = s.next ∧
    (flushConsume n s).nxt_write_lsn = s.nxt_write_lsn ∧
    (flushConsume n s).nxt_fsync_lsn = s.nxt_fsync_lsn ∧
    (flushConsume n s).nxt_flush_lsn =
      ⟨s.nxt_flush_lsn.filenum, s.nxt_flush_lsn.roffset + n⟩ ∧
    (flushConsume n s).fbgn = fqIncr s.fqsz s.fbgn := by
  unfold flushConsume
  simp only []
  unfold flushReclaim
  split <;> simp

theorem flushConsume_fque (n : Nat) (s : LogState) :
    (flushConsume n s).fque = fqueSet s.fque s.fbgn ⟨0, false⟩ := by
  unfold flushConsume
  simp only []
  unfold flushReclaim
  split <;> simp

theorem flushStage34_frame (c1 c2 : Prop) [Decidable c1] [Decidable c2] (s2 : LogState) :
    (if c1 then flushFilenumBump (if c2 then flushReclaim s2 else s2)
     else (if c2 then flushReclaim s2 else s2)).tail = s2.tail ∧
    (if c1 then flushFilenumBump (if c2 then flushReclaim s2 else s2)
     else (if c2 then flushReclaim s2 else s2)).size = s2.size ∧
    (if c1 then flushFilenumBump (if c2 then flushReclaim s2 else s2)
     else (if c2 then flushReclaim s2 else s2)).fqsz = s2.fqsz ∧
    (if c1 then flushFilenumBump (if c2 then flushReclaim s2 else s2)
     else (if c2 then flushReclaim s2 else s2)).nxt_write_lsn = s2.nxt_write_lsn ∧
    (if c1 then flushFilenumBump (if c2 then flushReclaim s2 else s2)
     else (if c2 then flushReclaim s2 else s2)).nxt_fsync_lsn = s2.nxt_fsync_lsn ∧
    (if c1 then flushFilenumBump (if c2 then flushReclaim s2 else s2)
     else (if c2 then flushReclaim s2 else s2)).curr = s2.curr ∧
    (if c1 then flushFilenumBump (if c2 then flushReclaim s2 else s2)
     else (if c2 then flushReclaim s2 else s2)).next = s2.next := by
  have hr := flushReclaim_frame s2
  split <;> split <;> simp_all [flushFilenumBump]

/-- Everything `do_log_buff_flush` leaves untouched: buffer geometry bounds,
`nxt_write_lsn`, `nxt_fsync_lsn`, and the identity/flags of the two file
descriptors. -/
theorem doLogBuffFlush_frame {a : Bool} {s : LogState} {n : Nat} {w : List Int}
    {s' : LogState} (h : doLogBuffFlush a s = some (n, w, s')) :
    s'.nxt_write_lsn = s.nxt_write_lsn ∧ s'.tail = s.tail ∧ s'.size = s.size ∧
    s'.fqsz = s.fqsz ∧ s'.nxt_fsync_lsn = s.nxt_fsync_lsn ∧
    s'.curr.fd = s.curr.fd ∧ s'.next.fd = s.next.fd ∧
    s'.curr.fsync_ongoing = s.curr.fsync_ongoing ∧
    s'.next.fsync_ongoing = s.next.fsync_ongoing := by
  unfold doLogBuffFlush at h
  split at h
  · exact absurd h (by simp)
  · rename_i nf df s2 hsel
    simp only [] at h
    -- the boundary stage only changes dw_end
    have hb : (flushBoundary s).size = s.size ∧ (flushBoundary s).head = s.head ∧
        (flushBoundary s).tail = s.tail ∧ (flushBoundary s).last = s.last ∧
        (flushBoundary s).fque = s.fque ∧ (flushBoundary s).fqsz = s.fqsz ∧
        (flushBoundary s).fbgn = s.fbgn ∧ (flushBoundary s).fend = s.fend ∧
        (flushBoundary s).curr = s.curr ∧ (flushBoundary s).next = s.next ∧
        (flushBoundary s).nxt_write_lsn = s.nxt_write_lsn ∧
        (flushBoundary s).nxt_flush_lsn = s.nxt_flush_lsn ∧
        (flushBoundary s).nxt_fsync_lsn = s.nxt_fsync_lsn := by
      unfold flushBoundary
      split <;> simp
    have hs2 : s2.tail = s.tail ∧ s2.size = s.size ∧ s2.fqsz = s.fqsz ∧
        s2.nxt_write_lsn = s.nxt_write_lsn ∧ s2.nxt_fsync_lsn = s.nxt_fsync_lsn ∧
        s2.nxt_flush_lsn = s.nxt_flush_lsn ∧ s2.curr = s.curr ∧ s2.next = s.next := by
      rcases flushSelect_cases hsel with ⟨-, -, -, -, h2⟩ | ⟨-, -, -, -, h2⟩ | ⟨-, -, -, -, h2⟩ <;>
        (subst h2; simp_all)
    obtain ⟨k1, k2, k3, k4, k5, k6, k7, k8⟩ := hs2
    split at h
    · -- nflush = 0: s' is s4
      have hr := flushReclaim_frame s2
      simp only [Option.some.injEq, Prod.mk.injEq] at h
      obtain ⟨-, -, h3⟩ := h
      subst h3
      split <;> split <;>
        simp_all [flushFilenumBump_frame, flushReclaim_frame]
    · -- write branch
      rename_i hnf0
      -- first name the intermediate s4
      split at h
      · exact absurd h (by simp)
      · rename_i s5 w5 hfw
        simp only [Option.some.injEq, Prod.mk.injEq] at h
        obtain ⟨-, -, h3⟩ := h
        subst h3
        have hcf := flushConsume_frame nf s5
        -- characterize s5 via the file-write cases, over the opaque s4
        have hs4 : ∀ s4 : LogState,
            (s4.tail = s.tail ∧ s4.size = s.size ∧ s4.fqsz = s.fqsz ∧
             s4.nxt_write_lsn = s.nxt_write_lsn ∧ s4.nxt_fsync_lsn = s.nxt_fsync_lsn ∧
             s4.curr = s.curr ∧ s4.next = s.next) →
            ∀ w' s5', (if s.dw_end ≠ -1 then
               (if df = true then doLogFileWrite nf false s4 else some (s4, []))
             else doLogFileWrite nf df s4) = some (s5', w') →
            s5'.tail = s.tail ∧ s5'.size = s.size ∧ s5'.fqsz = s.fqsz ∧
            s5'.nxt_write_lsn = s.nxt_write_lsn ∧ s5'.nxt_fsync_lsn = s.nxt_fsync_lsn ∧
            s5'.curr.fd = s.curr.fd ∧ s5'.next.fd = s.next.fd ∧
            s5'.curr.fsync_ongoing = s.curr.fsync_ongoing ∧
            s5'.next.fsync_ongoing = s.next.fsync_ongoing := by
          intro s4 hfr w' s5' hw
          split at hw
          · split at hw
            · rcases doLogFileWrite_cases hw with ⟨-, ⟨-, -, rfl, -⟩ | ⟨-, rfl, -⟩⟩ <;>
                simp_all
            · simp only [Option.some.injEq, Prod.mk.injEq] at hw
              obtain ⟨h4, -⟩ := hw
              subst h4
              simp_all
          · rcases doLogFileWrite_cases hw with ⟨-, ⟨-, -, rfl, -⟩ | ⟨-, rfl, -⟩⟩ <;>
              simp_all
        have hs5 := hs4 _ ?_ _ _ hfw
        · obtain ⟨m1, m2, m3, m4, m5, m6, m7, m8, m9⟩ := hs5
          constructor
          · rw [hcf.2.2.2.2.2.2.2.1, m4]
          constructor
          · rw [hcf.2.1, m1]
          constructor
          · rw [hcf.1, m2]
          constructor
          · rw [hcf.2.2.1, m3]
          constructor
          · rw [hcf.2.2.2.2.2.2.2.2.1, m5]
          refine ⟨?_, ?_, ?_, ?_⟩
          · rw [hcf.2.2.2.2.2.1, m6]
          · rw [hcf.2.2.2.2.2.2.1, m7]
          · rw [hcf.2.2.2.2.2.1, m8]
          · rw [hcf.2.2.2.2.2.2.1, m9]
        · -- s4 satisfies the frame: built from s2 by reclaim and bump
          obtain ⟨g1, g2, g3, g4, g5, g6, g7⟩ :=
            flushStage34_frame ((s.fbgn : Int) = s.dw_end) (0 < nf) s2
          exact ⟨g1.trans k1, g2.trans k2, g3.trans k3, g4.trans k4, g5.trans k5,
                 g6.trans k7, g7.trans k8⟩

theorem appendLoop_frame : ∀ {fuel t : Nat} {d : Bool} {s s' : LogState},
    appendLoop fuel t d s = some s' →
    s'.size = s.size ∧ s'.head = s.head ∧ s'.tail = s.tail ∧ s'.last = s.last ∧
    s'.fqsz = s.fqsz ∧ s'.fbgn = s.fbgn ∧ s'.dw_end = s.dw_end ∧ s'.curr = s.curr ∧
    s'.next = s.next ∧ s'.nxt_write_lsn = s.nxt_write_lsn ∧
    s'.nxt_flush_lsn = s.nxt_flush_lsn ∧ s'.nxt_fsync_lsn = s.nxt_fsync_lsn := by
  intro fuel
  induction fuel with
  | zero =>
    intro t d s s' h
    unfold appendLoop at h
    split at h
    · simp only [Option.some.injEq] at h
      subst h
      exact ⟨rfl, rfl, rfl, rfl, rfl, rfl, rfl, rfl, rfl, rfl, rfl, rfl⟩
    · exact absurd h (by simp)
  | succ fuel ih =>
    intro t d s s' h
    unfold appendLoop at h
    split at h
    · simp only [Option.some.injEq] at h
      subst h
      exact ⟨rfl, rfl, rfl, rfl, rfl, rfl, rfl, rfl, rfl, rfl, rfl, rfl⟩
    · simp only [] at h
      split at h <;> split at h <;>
      · have hf := ih h
        exact ⟨hf.1, hf.2.1, hf.2.2.1, hf.2.2.2.1, hf.2.2.2.2.1, hf.2.2.2.2.2.1,
               hf.2.2.2.2.2.2.1, hf.2.2.2.2.2.2.2.1, hf.2.2.2.2.2.2.2.2.1,
               hf.2.2.2.2.2.2.2.2.2.1, hf.2.2.2.2.2.2.2.2.2.2.1,
               hf.2.2.2.2.2.2.2.2.2.2.2⟩

theorem flagClose_frame (d : Bool) (s : LogState) :
    (flagClose d s).size = s.size ∧ (flagClose d s).head = s.head ∧
    (flagClose d s).tail = s.tail ∧ (flagClose d s).last = s.last ∧
    (flagClose d s).fque = s.fque ∧ (flagClose d s).fqsz = s.fqsz ∧
    (flagClose d s).fbgn = s.fbgn ∧ (flagClose d s).dw_end = s.dw_end ∧
    (flagClose d s).curr = s.curr ∧ (flagClose d s).next = s.next ∧
    (flagClose d s).nxt_write_lsn = s.nxt_write_lsn ∧
    (flagClose d s).nxt_flush_lsn = s.nxt_flush_lsn ∧
    (flagClose d s).nxt_fsync_lsn = s.nxt_fsync_lsn := by
  unfold flagClose
  split <;> simp

theorem tryAcquire_frame {t : Nat} {s s1 : LogState} {b : Bool}
    (h : tryAcquire t s = some (s1, b)) :
    s1.size = s.size ∧ s1.head = s.head ∧ s1.fque = s.fque ∧ s1.fqsz = s.fqsz ∧
    s1.fbgn = s.fbgn ∧ s1.dw_end = s.dw_end ∧ s1.curr = s.curr ∧ s1.next = s.next ∧
    s1.nxt_write_lsn = s.nxt_write_lsn ∧ s1.nxt_flush_lsn = s.nxt_flush_lsn ∧
    s1.nxt_fsync_lsn = s.nxt_fsync_lsn := by
  unfold tryAcquire at h
  split at h
  · split at h
    · exact absurd h (by simp)
    · split at h
      · simp only [Option.some.injEq, Prod.mk.injEq] at h
        obtain ⟨h1, -⟩ := h
        subst h1
        exact ⟨rfl, rfl, rfl, rfl, rfl, rfl, rfl, rfl, rfl, rfl, rfl⟩
      · split at h
        · simp only [] at h
          split at h <;>
          · simp only [Option.some.injEq, Prod.mk.injEq] at h
            obtain ⟨h1, -⟩ := h
            subst h1
            exact ⟨rfl, rfl, rfl, rfl, rfl, rfl, rfl, rfl, rfl, rfl, rfl⟩
        · simp only [Option.some.injEq, Prod.mk.injEq] at h
          obtain ⟨h1, -⟩ := h
          subst h1
          exact ⟨rfl, rfl, rfl, rfl, rfl, rfl, rfl, rfl, rfl, rfl, rfl⟩
  · split at h
    · exact absurd h (by simp)
    · split at h <;>
      · simp only [Option.some.injEq, Prod.mk.injEq] at h
        obtain ⟨h1, -⟩ := h
        subst h1
        exact ⟨rfl, rfl, rfl, rfl, rfl, rfl, rfl, rfl, rfl, rfl, rfl⟩

theorem acquireLoop_frame : ∀ {fuel t : Nat} {s s1 : LogState},
    acquireLoop fuel t s = some s1 →
    s1.size = s.size ∧ s1.fqsz = s.fqsz ∧
    s1.nxt_write_lsn = s.nxt_write_lsn ∧ s1.nxt_fsync_lsn = s.nxt_fsync_lsn ∧
    s1.curr.fd = s.curr.fd ∧ s1.next.fd = s.next.fd := by
  intro fuel
  induction fuel with
  | zero => intro t s s1 h; exact absurd h (by simp [acquireLoop])
  | succ fuel ih =>
    intro t s s1 h
    unfold acquireLoop at h
    split at h
    · exact absurd h (by simp)
    · rename_i sa hta
      simp only [Option.some.injEq] at h
      subst h
      have := tryAcquire_frame hta
      simp_all
    · rename_i sa hta
      split at h
      · exact absurd h (by simp)
      · rename_i n2 w2 s2 hfl
        obtain ⟨a1, a2, a3, a4, a5, a6, a7, a8, a9, a10, a11⟩ := tryAcquire_frame hta
        obtain ⟨b1, b2, b3, b4, b5, b6, b7, b8, b9⟩ := doLogBuffFlush_frame hfl
        obtain ⟨c1, c2, c3, c4, c5, c6⟩ := ih h
        exact ⟨c1.trans (b3.trans a1), c2.trans (b4.trans a4), c3.trans (b1.trans a9),
               c4.trans (b5.trans a11), c5.trans (b6.trans (congrArg FState.fd a7)),
               c6.trans (b7.trans (congrArg FState.fd a8))⟩

/-! ## C4: space-acquisition policy of the write path -/

/-- C4: Space-acquisition policy of the write path.  For a record of
`0 < len < size` from a state with in-range pointers: when `head ≤ tail`
(and `last = -1`, as the code asserts) space is sufficient iff
`len < size - tail`; otherwise if `head > 0` the ring wraps by setting
`last ← tail`, `tail ← 0` and closing a partially filled tail flush slot,
after which space is sufficient iff `len < head`; when `head > tail` space is
sufficient iff `len < head - tail`.  Consequently an acquired record occupies
the contiguous range `[tail, tail+len)` entirely inside the buffer (it never
wraps), and after the subsequent `tail += len` the ring is not full
(`head ≠ tail` again). -/
theorem write_space_acquisition_spec (len : Nat) (s : LogState)
    (hlen : 0 < len) (htail : s.tail ≤ s.size) (hhead : s.head ≤ s.size) :
    (s.head ≤ s.tail → s.last = -1 →
      ((tryAcquire len s = some (s, true)) ↔ len < s.size - s.tail)) ∧
    (s.head ≤ s.tail → s.last = -1 → ¬ len < s.size - s.tail → 0 < s.head →
      tryAcquire len s =
        some ({ s with last := (s.tail : Int), tail := 0,
                       fend := if 0 < (s.fque s.fend).nflush then fqIncr s.fqsz s.fend
                               else s.fend },
              decide (len < s.head))) ∧
    (s.tail < s.head → s.last ≠ -1 →
      tryAcquire len s = some (s, decide (len < s.head - s.tail))) ∧
    (∀ s1 : LogState, tryAcquire len s = some (s1, true) →
      s1.tail + len < s.size ∧ s1.tail + len ≠ s1.head) := by
  refine ⟨?_, ?_, ?_, ?_⟩
  · intro h1 h2
    constructor
    · intro h
      unfold tryAcquire at h
      rw [if_pos h1, if_neg (by simp [h2])] at h
      split at h
      · assumption
      · split at h
        · simp only [] at h
          split at h <;>
          · simp only [Option.some.injEq, Prod.mk.injEq] at h
            have := congrArg LogState.last h.1
            simp only [] at this
            rw [h2] at this
            exact absurd this (by omega)
        · simp only [Option.some.injEq, Prod.mk.injEq] at h
          exact absurd h.2 (by simp)
    · intro h
      unfold tryAcquire
      rw [if_pos h1, if_neg (by simp [h2]), if_pos h]
  · intro h1 h2 h3 h4
    unfold tryAcquire
    rw [if_pos h1, if_neg (by simp [h2]), if_neg h3, if_pos h4]
    simp only []
    split <;> simp_all
  · intro h1 h2
    unfold tryAcquire
    rw [if_neg (by omega), if_neg h2]
    split <;> simp_all
  · intro s1 h
    unfold tryAcquire at h
    split at h
    · split at h
      · exact absurd h (by simp)
      · rename_i hle hl
        split at h
        · rename_i hsp
          simp only [Option.some.injEq, Prod.mk.injEq] at h
          obtain ⟨h5, -⟩ := h
          subst h5
          omega
        · split at h
          · simp only [] at h
            split at h
            · rename_i hh
              simp only [Option.some.injEq, Prod.mk.injEq] at h
              obtain ⟨h5, -⟩ := h
              subst h5
              simp only [] at hh ⊢
              omega
            · simp only [Option.some.injEq, Prod.mk.injEq] at h
              exact absurd h.2 (by simp)
          · simp only [Option.some.injEq, Prod.mk.injEq] at h
            exact absurd h.2 (by simp)
    · split at h
      · exact absurd h (by simp)
      · split at h
        · rename_i hwr hl hsp
          simp only [Option.some.injEq, Prod.mk.injEq] at h
          obtain ⟨h5, -⟩ := h
          subst h5
          omega
        · simp only [Option.some.injEq, Prod.mk.injEq] at h
          exact absurd h.2 (by simp)

/-- Witness for C4 at a concrete state: the initial ring, record length 16. -/
theorem write_space_acquisition_spec_witness :
    0 < 16 ∧ cmdlogBufInit.tail ≤ cmdlogBufInit.size ∧
    cmdlogBufInit.head ≤ cmdlogBufInit.size ∧
    tryAcquire 16 cmdlogBufInit = some (cmdlogBufInit, true) :=
  ⟨by decide, by decide, by decide,
   ((write_space_acquisition_spec 16 cmdlogBufInit (by decide) (by decide)
       (by decide)).1 (by decide) (by decide)).mpr (by decide)⟩

/-! ## C8: exact LSN advance of a successful record_write -/

/-- C8: every successful `record_write` of a record with `body_length` body
bytes stamps the waiter with the pre-advance `nxt_write_lsn` and advances
`nxt_write_lsn.roffset` by exactly `sizeof(LogHdr) + body_length` (the
filenum is untouched); `tail` is advanced by the same amount from the
position at which the record was placed (equal to the entry `tail` whenever
the entry state has immediate space, i.e. `head ≤ tail` unwrapped and
`total_length < size - tail`). -/
theorem record_write_lsn_advance {fuel body_length : Nat} {dual_write : Bool}
    {s s' : LogState} {stamp : LogSN}
    (h : doLogBuffWrite fuel body_length dual_write s = some (s', stamp)) :
    stamp = s.nxt_write_lsn ∧
    s'.nxt_write_lsn.filenum = s.nxt_write_lsn.filenum ∧
    s'.nxt_write_lsn.roffset = s.nxt_write_lsn.roffset + (sizeofLogHdr + body_length) ∧
    (s.head ≤ s.tail → s.last = -1 → sizeofLogHdr + body_length < s.size - s.tail →
      s'.tail = s.tail + (sizeofLogHdr + body_length)) := by
  unfold doLogBuffWrite at h
  simp only [] at h
  split at h
  · rename_i hsz
    split at h
    · exact absurd h (by simp)
    · rename_i s1 hacq
      split at h
      · exact absurd h (by simp)
      · rename_i s4 happ
        simp only [Option.some.injEq, Prod.mk.injEq] at h
        obtain ⟨h5, h6⟩ := h
        subst h5
        refine ⟨h6.symm, ?_, ?_, ?_⟩
        · rw [(appendLoop_frame happ).2.2.2.2.2.2.2.2.2.1,
              (flagClose_frame dual_write _).2.2.2.2.2.2.2.2.2.2.1]
          show s1.nxt_write_lsn.filenum = s.nxt_write_lsn.filenum
          rw [(acquireLoop_frame hacq).2.2.1]
        · rw [(appendLoop_frame happ).2.2.2.2.2.2.2.2.2.1,
              (flagClose_frame dual_write _).2.2.2.2.2.2.2.2.2.2.1]
          show s1.nxt_write_lsn.roffset + (sizeofLogHdr + body_length) =
            s.nxt_write_lsn.roffset + (sizeofLogHdr + body_length)
          rw [(acquireLoop_frame hacq).2.2.1]
        · intro hc1 hc2 hc3
          -- in this regime the very first tryAcquire succeeds without mutation
          have hta : tryAcquire (sizeofLogHdr + body_length) s = some (s, true) := by
            unfold tryAcquire
            rw [if_pos hc1, if_neg (by simp [hc2]), if_pos hc3]
          have hfuel : ∃ k, fuel = k + 1 := by
            cases fuel with
            | zero => exact absurd hacq (by simp [acquireLoop])
            | succ k => exact ⟨k, rfl⟩
          obtain ⟨k, rfl⟩ := hfuel
          rw [show acquireLoop (k + 1) (sizeofLogHdr + body_length) s = some s by
                unfold acquireLoop; rw [hta]] at hacq
          simp only [Option.some.injEq] at hacq
          subst hacq
          rw [(appendLoop_frame happ).2.2.1, (flagClose_frame dual_write _).2.2.1]
          rfl
  · exact absurd h (by simp)

/-- Witness for C8: one record of body length 8 written into the fresh
state; the waiter is stamped `(1,0)` and the write LSN advances to `(1,16)`. -/
theorem record_write_lsn_advance_witness :
    (doLogBuffWrite 1 8 false cmdlogBufInit).map
      (fun p => (p.2, p.1.nxt_write_lsn.filenum, p.1.nxt_write_lsn.roffset, p.1.tail)) =
      some (⟨1, 0⟩, 1, 16, 16) := by
  have hs : (doLogBuffWrite 1 8 false cmdlogBufInit).isSome = true := rfl
  obtain ⟨p, hp⟩ := Option.isSome_iff_exists.mp hs
  obtain ⟨s', stamp⟩ := p
  obtain ⟨m1, m2, m3, m4⟩ := record_write_lsn_advance hp
  rw [hp]
  simp only [Option.map_some']
  rw [m1, m2, m3, m4 (by decide) (by decide) (by decide)]
  rfl

/-! ## C3: complete_dual_write on success -/

/-- C3: `complete_dual_write(success=true)` with `next.fd` present and
`dw_end == -1`: the non-empty tail flush slot (if any) is closed, `dw_end` is
set to the resulting `fend`, `nxt_write_lsn` becomes `(filenum+1, 0)`, the
handover installs `next` into `curr` and clears `next`, and the previous
`curr` descriptor is closed immediately iff its `fsync_ongoing` flag was
false. -/
theorem complete_dual_write_success_spec {s s' : LogState} {closed : Option Int}
    (hnext : s.next.fd ≠ -1) (hdw : s.dw_end = -1) (hcurr : s.curr.fd ≠ -1)
    (h : cmdlogCompleteDualWrite true s = some (s', closed)) :
    s'.fend = (if 0 < (s.fque s.fend).nflush then fqIncr s.fqsz s.fend else s.fend) ∧
    s'.dw_end = (s'.fend : Int) ∧
    s'.nxt_write_lsn = ⟨s.nxt_write_lsn.filenum + 1, 0⟩ ∧
    s'.curr = s.next ∧
    s'.next = ⟨-1, false, 0⟩ ∧
    (closed = some s.curr.fd ↔ s.curr.fsync_ongoing = false) ∧
    (closed = none ↔ s.curr.fsync_ongoing = true) := by
  unfold cmdlogCompleteDualWrite at h
  rw [if_neg hnext, if_pos rfl, if_neg (by simp [hdw])] at h
  simp only [] at h
  split at h <;>
    rename_i hcl <;>
    simp only [Option.some.injEq, Prod.mk.injEq] at h <;>
    obtain ⟨h1, h2⟩ := h <;>
    subst h1 <;>
    subst h2
  · exact ⟨rfl, rfl, rfl, rfl, rfl, by simp_all, by simp_all⟩
  · exact ⟨rfl, rfl, rfl, rfl, rfl, by simp_all, by simp_all⟩

/-- A concrete mid-rotation state: old file on fd 3, new file on fd 4, one
16-byte dual-write request pending. -/
def sampleDualState : LogState :=
  { size := 1024
    head := 0
    tail := 16
    last := -1
    fque := fun j => if j = 0 then ⟨16, true⟩ else ⟨0, false⟩
    fqsz := 4
    fbgn := 0
    fend := 0
    dw_end := -1
    curr := ⟨3, false, 10⟩
    next := ⟨4, false, 0⟩
    nxt_write_lsn := ⟨1, 16⟩
    nxt_flush_lsn := ⟨1, 0⟩
    nxt_fsync_lsn := ⟨1, 0⟩ }

/-- Witness for C3 at `sampleDualState`: the tail slot is closed (`fend 0→1`),
`dw_end := 1`, the write LSN becomes `(2,0)`, fd 4 is installed as `curr`,
`next` is cleared and fd 3 is closed immediately. -/
theorem complete_dual_write_success_spec_witness :
    (cmdlogCompleteDualWrite true sampleDualState).map
      (fun p => (p.1.fend, p.1.dw_end, p.1.nxt_write_lsn, p.1.curr, p.1.next, p.2)) =
      some (1, 1, ⟨2, 0⟩, ⟨4, false, 0⟩, ⟨-1, false, 0⟩, some 3) := by
  have hs : (cmdlogCompleteDualWrite true sampleDualState).isSome = true := rfl
  obtain ⟨p, hp⟩ := Option.isSome_iff_exists.mp hs
  obtain ⟨s', closed⟩ := p
  obtain ⟨m1, m2, m3, m4, m5, m6, m7⟩ :=
    complete_dual_write_success_spec (by decide) (by decide) (by decide) hp
  have e1 : s'.fend = 1 := by rw [m1]; rfl
  have e2 : s'.dw_end = 1 := by rw [m2, e1]; rfl
  have e3 : closed = some 3 := m6.mpr rfl
  rw [hp]
  simp only [Option.map_some']
  rw [e1, e2, m3, m4, m5, e3]
  rfl

/-! ## C10 / C2: the cleanup branch of the flusher -/

/-- C10: during a cleanup window (`dw_end != -1` at entry), a selected flush
request whose `dual_write` flag is false is written to no file at all
(`written = []`, neither file size changes), yet `nxt_flush_lsn.roffset` and
`head` still advance by its `nflush` bytes and the slot is consumed
(zeroed, `fbgn` advanced).  The same cleanup rules govern the very call in
which `fbgn == dw_end`: the slot is still processed under them, with the
filenum bump applied first. -/
theorem cleanup_skip_accounting {all : Bool} {s : LogState} {n : Nat}
    (hdw : s.dw_end ≠ -1) (hne : s.fbgn ≠ s.fend)
    (hslot : s.fque s.fbgn = ⟨n, false⟩) (hn : 0 < n) (hlast : s.last = -1) :
    ((s.fbgn : Int) = s.dw_end →
      doLogBuffFlush all s = some (n, [],
        { s with head := s.head + n,
                 fque := fqueSet s.fque s.fbgn ⟨0, false⟩,
                 fbgn := fqIncr s.fqsz s.fbgn,
                 dw_end := -1,
                 nxt_flush_lsn := ⟨s.nxt_flush_lsn.filenum + 1, n⟩ })) ∧
    ((s.fbgn : Int) ≠ s.dw_end →
      doLogBuffFlush all s = some (n, [],
        { s with head := s.head + n,
                 fque := fqueSet s.fque s.fbgn ⟨0, false⟩,
                 fbgn := fqIncr s.fqsz s.fbgn,
                 nxt_flush_lsn := ⟨s.nxt_flush_lsn.filenum,
                                   s.nxt_flush_lsn.roffset + n⟩ })) := by
  have hh1 : ¬ (s.head : Int) = s.last := by rw [hlast]; omega
  have hh2 : ¬ ((s.head : Int) + (n : Int)) = s.last := by rw [hlast]; omega
  have hnz : ¬ (s.fque s.fbgn).nflush = 0 := by simp [hslot]; omega
  have hn0 : ¬ n = 0 := by omega
  constructor <;> intro hbnd <;>
    simp [doLogBuffFlush, flushBoundary, flushSelect, flushReclaim, flushFilenumBump,
          flushConsume, hbnd, hne, hslot, hnz, hn0, hh1, hh2, hdw, hn]

/-- A concrete cleanup-window state: handover done (`curr.fd = 4`), boundary
`dw_end = 2`, slot 0 pre-rotation single-write, slot 1 pre-rotation
dual-write. -/
def sampleCleanupState : LogState :=
  { size := 1024
    head := 0
    tail := 32
    last := -1
    fque := fun j => if j = 0 then ⟨16, false⟩ else if j = 1 then ⟨16, true⟩ else ⟨0, false⟩
    fqsz := 4
    fbgn := 0
    fend := 2
    dw_end := 2
    curr := ⟨4, false, 0⟩
    next := ⟨-1, false, 0⟩
    nxt_write_lsn := ⟨2, 0⟩
    nxt_flush_lsn := ⟨1, 0⟩
    nxt_fsync_lsn := ⟨1, 0⟩ }

/-- Witness for C10: the skipped slot at `sampleCleanupState` — 16 bytes are
consumed, nothing is written to any file, the flush LSN and `head` advance. -/
theorem cleanup_skip_accounting_witness :
    sampleCleanupState.dw_end ≠ -1 ∧
    doLogBuffFlush false sampleCleanupState = some (16, [],
      { sampleCleanupState with
          head := sampleCleanupState.head + 16,
          fque := fqueSet sampleCleanupState.fque sampleCleanupState.fbgn ⟨0, false⟩,
          fbgn := fqIncr sampleCleanupState.fqsz sampleCleanupState.fbgn,
          nxt_flush_lsn := ⟨sampleCleanupState.nxt_flush_lsn.filenum,
                            sampleCleanupState.nxt_flush_lsn.roffset + 16⟩ }) :=
  ⟨by decide,
   (@cleanup_skip_accounting false sampleCleanupState 16 (by decide) (by decide)
      rfl (by decide) (by decide)).2 (by decide)⟩

/-- C2 (amended): routing of a flush during a cleanup window
(`dw_end != -1` at entry).  The selected request's bytes are written only
when its `dual_write` flag is set, and then only to `curr.fd` — which after
the handover holds the post-rotation (new) file, not the pre-rotation one —
and never to `next`; when `fbgn == dw_end` at entry, `dw_end` is reset to
`-1` and `nxt_flush_lsn.filenum` is incremented with `roffset` reset. -/
theorem cleanup_flush_routing {all : Bool} {s : LogState} {n : Nat} {d : Bool}
    (hdw : s.dw_end ≠ -1) (hne : s.fbgn ≠ s.fend)
    (hslot : s.fque s.fbgn = ⟨n, d⟩) (hn : 0 < n) (hcurr : s.curr.fd ≠ -1)
    (hlast : s.last = -1) :
    (d = true → (s.fbgn : Int) = s.dw_end →
      doLogBuffFlush all s = some (n, [s.curr.fd],
        { s with head := s.head + n,
                 fque := fqueSet s.fque s.fbgn ⟨0, false⟩,
                 fbgn := fqIncr s.fqsz s.fbgn,
                 dw_end := -1,
                 curr := { s.curr with size := s.curr.size + n },
                 nxt_flush_lsn := ⟨s.nxt_flush_lsn.filenum + 1, n⟩ })) ∧
    (d = true → (s.fbgn : Int) ≠ s.dw_end →
      doLogBuffFlush all s = some (n, [s.curr.fd],
        { s with head := s.head + n,
                 fque := fqueSet s.fque s.fbgn ⟨0, false⟩,
                 fbgn := fqIncr s.fqsz s.fbgn,
                 curr := { s.curr with size := s.curr.size + n },
                 nxt_flush_lsn := ⟨s.nxt_flush_lsn.filenum,
                                   s.nxt_flush_lsn.roffset + n⟩ })) ∧
    (d = false → (s.fbgn : Int) = s.dw_end →
      doLogBuffFlush all s = some (n, [],
        { s with head := s.head + n,
                 fque := fqueSet s.fque s.fbgn ⟨0, false⟩,
                 fbgn := fqIncr s.fqsz s.fbgn,
                 dw_end := -1,
                 nxt_flush_lsn := ⟨s.nxt_flush_lsn.filenum + 1, n⟩ })) ∧
    (d = false → (s.fbgn : Int) ≠ s.dw_end →
      doLogBuffFlush all s = some (n, [],
        { s with head := s.head + n,
                 fque := fqueSet s.fque s.fbgn ⟨0, false⟩,
                 fbgn := fqIncr s.fqsz s.fbgn,
                 nxt_flush_lsn := ⟨s.nxt_flush_lsn.filenum,
                                   s.nxt_flush_lsn.roffset + n⟩ })) := by
  have hh1 : ¬ (s.head : Int) = s.last := by rw [hlast]; omega
  have hh2 : ¬ ((s.head : Int) + (n : Int)) = s.last := by rw [hlast]; omega
  have hnz : ¬ (s.fque s.fbgn).nflush = 0 := by simp [hslot]; omega
  have hn0 : ¬ n = 0 := by omega
  refine ⟨?_, ?_, ?_, ?_⟩ <;> intro hd hbnd <;> subst hd <;>
    simp [doLogBuffFlush, flushBoundary, flushSelect, flushReclaim, flushFilenumBump,
          flushConsume, doLogFileWrite, hbnd, hne, hslot, hnz, hn0, hh1, hh2, hdw, hn, hcurr]

/-- Witness for C2 (amended) at a cleanup state positioned on a dual-write
slot: 16 bytes go to `curr.fd = 4` only, and `next` is untouched. -/
theorem cleanup_flush_routing_witness :
    doLogBuffFlush false { sampleCleanupState with fbgn := 1 } = some (16, [4],
      { sampleCleanupState with
          fbgn := fqIncr sampleCleanupState.fqsz 1,
          head := sampleCleanupState.head + 16,
          fque := fqueSet sampleCleanupState.fque 1 ⟨0, false⟩,
          curr := { sampleCleanupState.curr with size := sampleCleanupState.curr.size + 16 },
          nxt_flush_lsn := ⟨1, 16⟩ }) := by
  have h := (@cleanup_flush_routing false { sampleCleanupState with fbgn := 1 } 16 true
      (by decide) (by decide) rfl (by decide) (by decide) (by decide)).2.1
      rfl (by decide)
  exact h

/-- The rotation trace for the C2 counterexample: init, prepare fd 3, one
16-byte single-write record, prepare fd 4 (rotation starts), one 16-byte
dual-write record.  `curr.fd = 3` (pre-rotation) and `next.fd = 4`. -/
def preRotationTrace : Option LogState :=
  (doLogBuffWrite 4 8 false (cmdlogFilePrepare 3 cmdlogBufInit)).bind fun p1 =>
  (doLogBuffWrite 4 8 true (cmdlogFilePrepare 4 p1.1)).map Prod.fst

/-- The same trace after `complete_dual_write(true)`: cleanup window active. -/
def rotationTrace : Option LogState :=
  preRotationTrace.bind fun s => (cmdlogCompleteDualWrite true s).map Prod.fst

/-- Counterexample for C2: before completion the pre-rotation file is fd 3
and the new file fd 4; during the cleanup window (`dw_end = 2 ≠ -1`) the
flush of the pending dual-write slot writes its bytes to fd 4 — the
post-rotation file now held in `curr.fd` — and not to the pre-rotation
file fd 3, refuting "curr.fd, which points to the pre-rotation file". -/
theorem cleanup_write_targets_new_file_cex :
    (preRotationTrace.map fun s => (s.curr.fd, s.next.fd)) = some (3, 4) ∧
    (rotationTrace.bind fun s =>
      (doLogBuffFlush false s).bind fun r1 =>
      (doLogBuffFlush false r1.2.2).map fun r2 =>
        (s.dw_end, s.curr.fd, r1.2.1, r2.1, r2.2.1)) =
      some (2, 4, [], 16, [4]) ∧
    (4 : Int) ≠ 3 := by
  refine ⟨rfl, rfl, by decide⟩

/-! ## C9: scenario S1 -/

/-- Scenario S1: init, prepare a file (fd 3), write three records of body
lengths 8, 16, 32 (8-byte headers), `buffer_flush(upto=(1,72))`,
`file_sync`. -/
def s1Trace : Option LogState :=
  (doLogBuffWrite 4 8 false (cmdlogFilePrepare 3 cmdlogBufInit)).bind fun p1 =>
  (doLogBuffWrite 4 16 false p1.1).bind fun p2 =>
  (doLogBuffWrite 4 32 false p2.1).bind fun p3 =>
  (logBufferFlush 8 ⟨1, 72⟩ p3.1).bind fun s4 =>
  logFileSync s4

/-- Counterexample for C9: the S1 run does not end with
`nxt_fsync_lsn = (1,72)` and file size 72 — the three records total
3·8 + (8+16+32) = 80 bytes, not 72. -/
theorem scenario_s1_cex :
    ¬ ((s1Trace.map fun s => (s.nxt_fsync_lsn, s.curr.size)) = some (⟨1, 72⟩, 72)) := by
  intro h
  have hv : (s1Trace.map fun s => (s.nxt_fsync_lsn, s.curr.size)) = some (⟨1, 80⟩, 80) := rfl
  rw [hv] at h
  simp at h

/-- C9 (amended): the S1 run yields `nxt_fsync_lsn = (1, 80)` and a log file
of 80 bytes (the `buffer_flush(upto=(1,72))` call flushes all 80 pending
bytes in one request and `file_sync` adopts the flush LSN). -/
theorem scenario_s1_actual :
    (s1Trace.map fun s => (s.nxt_fsync_lsn, s.nxt_flush_lsn, s.nxt_write_lsn, s.curr.size)) =
      some (⟨1, 80⟩, ⟨1, 80⟩, ⟨1, 80⟩, 80) := rfl

/-! ## C6: buffer_flush progress and its failing assertion -/

theorem doLogFileWrite_frame {n : Nat} {d : Bool} {s s' : LogState} {w : List Int}
    (h : doLogFileWrite n d s = some (s', w)) :
    s'.size = s.size ∧ s'.head = s.head ∧ s'.tail = s.tail ∧ s'.last = s.last ∧
    s'.fque = s.fque ∧ s'.fqsz = s.fqsz ∧ s'.fbgn = s.fbgn ∧ s'.fend = s.fend ∧
    s'.dw_end = s.dw_end ∧ s'.nxt_write_lsn = s.nxt_write_lsn ∧
    s'.nxt_flush_lsn = s.nxt_flush_lsn ∧ s'.nxt_fsync_lsn = s.nxt_fsync_lsn := by
  unfold doLogFileWrite at h
  split at h
  · exact absurd h (by simp)
  · simp only [] at h
    split at h <;>
    · simp only [Option.some.injEq, Prod.mk.injEq] at h
      obtain ⟨h1, -⟩ := h
      subst h1
      exact ⟨rfl, rfl, rfl, rfl, rfl, rfl, rfl, rfl, rfl, rfl, rfl, rfl⟩

/-- How one flush step moves `nxt_flush_lsn`: by `nflush` within the file,
with the filenum bump (and roffset restart) when the call consumes the
dual-write boundary. -/
theorem doLogBuffFlush_flush_lsn {a : Bool} {s : LogState} {n : Nat} {w : List Int}
    {s' : LogState} (h : doLogBuffFlush a s = some (n, w, s')) :
    s'.nxt_flush_lsn =
      if (s.fbgn : Int) = s.dw_end then ⟨s.nxt_flush_lsn.filenum + 1, n⟩
      else ⟨s.nxt_flush_lsn.filenum, s.nxt_flush_lsn.roffset + n⟩ := by
  unfold doLogBuffFlush at h
  split at h
  · exact absurd h (by simp)
  · rename_i nf df s2 hsel
    simp only [] at h
    have hs2 : s2.nxt_flush_lsn = s.nxt_flush_lsn := by
      rcases flushSelect_cases hsel with ⟨-, -, -, -, h2⟩ | ⟨-, -, -, -, h2⟩ | ⟨-, -, -, -, h2⟩ <;>
        subst h2 <;>
        rcases flushBoundary_cases s with ⟨-, hb⟩ | ⟨-, hb⟩ <;> rw [hb]
    have hx : (if 0 < nf then flushReclaim s2 else s2).nxt_flush_lsn = s.nxt_flush_lsn := by
      split
      · rw [(flushReclaim_frame s2).2.2.2.2.2.2.2.2.2.2.1]
        exact hs2
      · exact hs2
    split at h
    · -- nflush = 0 branch
      rename_i hnf
      subst hnf
      simp only [Option.some.injEq, Prod.mk.injEq] at h
      obtain ⟨hn', -, h3⟩ := h
      subst h3
      subst hn'
      split <;> rename_i hbnd
      · simp [flushFilenumBump, hx, hs2]
      · simp [hx, hs2]
    · rename_i hnf
      split at h
      · exact absurd h (by simp)
      · rename_i s5 w5 hfw
        simp only [Option.some.injEq, Prod.mk.injEq] at h
        obtain ⟨hn', -, h3⟩ := h
        subst h3
        subst hn'
        have h5 : s5.nxt_flush_lsn =
            (if (s.fbgn : Int) = s.dw_end
              then flushFilenumBump (if 0 < nf then flushReclaim s2 else s2)
              else (if 0 < nf then flushReclaim s2 else s2)).nxt_flush_lsn := by
          split at hfw
          · split at hfw
            · exact ((doLogFileWrite_frame hfw).2.2.2.2.2.2.2.2.2.2.1)
            · simp only [Option.some.injEq, Prod.mk.injEq] at hfw
              obtain ⟨h6, -⟩ := hfw
              subst h6
              rfl
          · exact ((doLogFileWrite_frame hfw).2.2.2.2.2.2.2.2.2.2.1)
        rw [(flushConsume_frame nf s5).2.2.2.2.2.2.2.2.2.1, h5]
        split <;> rename_i hbnd
        · simp [flushFilenumBump, hx]
        · simp [hx]

theorem logsnLE_false_GT {a b : LogSN} (h : ¬ logsnLE a b = true) : logsnGT a b = true :=
  logsnGT_iff_not_le.mpr fun hc => h (logsnLE_iff.mpr hc)

/-- C6 (amended): (1) whenever `buffer_flush(upto)` returns (rather than
aborting on its assertion), `nxt_flush_lsn > upto` holds; (2) when the flush
queue is drained exactly to an unconsumed dual-write boundary
(`fbgn = dw_end ≠ -1`, empty queue), `flush_once(flush_all=true)` returns 0
while still strictly advancing `nxt_flush_lsn` (filenum bump) — so the
internal `assert(nflush > 0)` in `buffer_flush` CAN fail, and in the model
`buffer_flush` aborts (`none`) from such a state whenever
`nxt_flush_lsn ≤ upto`; (3) in every iteration that does select work
(`nflush > 0`), `nxt_flush_lsn` strictly advances. -/
theorem buffer_flush_progress :
    (∀ {fuel : Nat} {upto : LogSN} {s s' : LogState},
      logBufferFlush fuel upto s = some s' → logsnGT s'.nxt_flush_lsn upto = true) ∧
    (∀ s : LogState, s.dw_end ≠ -1 → (s.fbgn : Int) = s.dw_end → s.fbgn = s.fend →
      (s.fque s.fend).nflush = 0 →
      (doLogBuffFlush true s = some (0, [], flushFilenumBump { s with dw_end := -1 }) ∧
       logsnGT (flushFilenumBump { s with dw_end := -1 }).nxt_flush_lsn
         s.nxt_flush_lsn = true ∧
       (∀ (fuel : Nat) (upto : LogSN), logsnLE s.nxt_flush_lsn upto = true →
         logBufferFlush (fuel + 1) upto s = none))) ∧
    (∀ {a : Bool} {s : LogState} {n : Nat} {w : List Int} {s' : LogState},
      doLogBuffFlush a s = some (n, w, s') → 0 < n →
      logsnGT s'.nxt_flush_lsn s.nxt_flush_lsn = true) := by
  have part3 : ∀ {a : Bool} {s : LogState} {n : Nat} {w : List Int} {s' : LogState},
      doLogBuffFlush a s = some (n, w, s') → 0 < n →
      logsnGT s'.nxt_flush_lsn s.nxt_flush_lsn = true := by
    intro a s n w s' h hn
    rw [doLogBuffFlush_flush_lsn h]
    split <;> simp [logsnGT] <;> omega
  refine ⟨?_, ?_, part3⟩
  · intro fuel
    induction fuel with
    | zero => intro upto s s' h; exact absurd h (by simp [logBufferFlush])
    | succ fuel ih =>
      intro upto s s' h
      unfold logBufferFlush at h
      split at h
      · split at h
        · exact absurd h (by simp)
        · rename_i nf wr s1 hfl
          split at h
          · exact absurd h (by simp)
          · split at h
            · rename_i hgt
              simp only [Option.some.injEq] at h
              subst h
              exact hgt
            · exact ih h
      · rename_i hle
        simp only [Option.some.injEq] at h
        subst h
        exact logsnLE_false_GT hle
  · intro s hdw hbnd hfe hzero
    have hbnd' : (s.fend : Int) = s.dw_end := hfe ▸ hbnd
    have h1 : doLogBuffFlush true s = some (0, [], flushFilenumBump { s with dw_end := -1 }) := by
      simp [doLogBuffFlush, flushBoundary, flushSelect, hbnd, hbnd', hfe, hzero]
    refine ⟨h1, by simp [flushFilenumBump, logsnGT], ?_⟩
    intro fuel upto hle
    unfold logBufferFlush
    rw [if_pos hle, h1]
    rfl

/-- Witness for C6 (amended), part (2): a drained boundary state.  The
`flush_once(true)` call returns 0 bytes yet bumps the flush LSN filenum, and
`buffer_flush` from that state aborts on its assertion. -/
theorem buffer_flush_progress_witness :
    doLogBuffFlush true { sampleCleanupState with fbgn := 2 } =
      some (0, [], flushFilenumBump { { sampleCleanupState with fbgn := 2 } with dw_end := -1 }) ∧
    logBufferFlush 3 ⟨1, 0⟩ { sampleCleanupState with fbgn := 2 } = none := by
  obtain ⟨h1, h2, h3⟩ := buffer_flush_progress.2.1 { sampleCleanupState with fbgn := 2 }
    (by decide) (by decide) (by decide) (by decide)
  exact ⟨h1, h3 2 ⟨1, 0⟩ (by decide)⟩

/-- Counterexample for C6: from `rotationTrace`, two background flushes drain
the queue exactly to the dual-write boundary.  In the resulting state
`nxt_flush_lsn = (1,32) ≤ upto = (1,32) < nxt_write_lsn = (2,0)`, yet
`buffer_flush(upto)` hits `assert(nflush > 0)` — `flush_once(true)` returns 0
(while bumping the flush filenum), so the assertion fails (`none`). -/
theorem buffer_flush_assertion_failure_cex :
    (rotationTrace.bind fun s =>
      (doLogBuffFlush false s).bind fun r1 =>
      (doLogBuffFlush false r1.2.2).map fun r2 =>
        (logsnLE r2.2.2.nxt_flush_lsn ⟨1, 32⟩,
         logsnGT r2.2.2.nxt_write_lsn ⟨1, 32⟩,
         logBufferFlush 9 ⟨1, 32⟩ r2.2.2)) =
      some (true, true, none) := rfl

/-! ## C1: LSN ordering invariant over reachable states -/

/-- One public operation of the subsystem, among exactly those the LSN
ordering claim quantifies over: `record_write`, `flush_once`, `buffer_flush`,
`file_sync` and `complete_dual_write`.  A step exists only when the operation
completes without hitting an assert. -/
inductive LogStep : LogState → LogState → Prop
  | record_write (fuel body_length : Nat) (dual_write : Bool) {s s' : LogState}
      {stamp : LogSN} :
      doLogBuffWrite fuel body_length dual_write s = some (s', stamp) → LogStep s s'
  | flush_once (flush_all : Bool) {s s' : LogState} {n : Nat} {w : List Int} :
      doLogBuffFlush flush_all s = some (n, w, s') → LogStep s s'
  | buffer_flush (fuel : Nat) (upto_lsn : LogSN) {s s' : LogState} :
      logBufferFlush fuel upto_lsn s = some s' → LogStep s s'
  | file_sync {s s' : LogState} :
      logFileSync s = some s' → LogStep s s'
  | complete_dual_write (success : Bool) {s s' : LogState} {c : Option Int} :
      cmdlogCompleteDualWrite success s = some (s', c) → LogStep s s'

/-- States reachable from `cmdlog_buf_init` by the five operations of C1. -/
inductive LogReachable : LogState → Prop
  | init : LogReachable cmdlogBufInit
  | step {s s' : LogState} : LogReachable s → LogStep s s' → LogReachable s'

/-- The inductive invariant that carries the LSN ordering: with only the five
operations of C1 available (no `file_prepare`), no log file is ever
installed, hence every flush that selects work aborts on the
`curr.fd != -1` assert, no byte is ever flushed, and no dual-write boundary
is ever set. -/
def C1Inv (s : LogState) : Prop :=
  s.curr.fd = -1 ∧ s.next.fd = -1 ∧ s.dw_end = -1 ∧
  s.nxt_flush_lsn = ⟨1, 0⟩ ∧ s.nxt_fsync_lsn = ⟨1, 0⟩ ∧ s.nxt_write_lsn.filenum = 1

theorem flushNoopInv {a : Bool} {s s' : LogState} {n : Nat} {w : List Int}
    (hinv : C1Inv s) (h : doLogBuffFlush a s = some (n, w, s')) :
    s' = s ∧ n = 0 := by
  obtain ⟨hc, hx, hd, -, -, -⟩ := hinv
  have hbnd : ¬ (s.fbgn : Int) = s.dw_end := by rw [hd]; omega
  have hb : flushBoundary s = s := by unfold flushBoundary; rw [if_neg hbnd]
  have hcl : ¬ s.dw_end ≠ -1 := by simp [hd]
  unfold doLogBuffFlush at h
  rw [hb] at h
  split at h
  · exact absurd h (by simp)
  · rename_i nf df s2 hsel
    simp only [] at h
    rw [if_neg hbnd, if_neg hcl] at h
    rcases flushSelect_cases hsel with ⟨-, hpos, hnf, -, h2⟩ | ⟨-, ⟨-, hpos⟩, hnf, -, h2⟩ |
      ⟨-, -, hnf, -, h2⟩
    · rw [h2] at h
      rw [if_neg (by omega)] at h
      split at h
      · exact absurd h (by simp)
      · rename_i s5 w5 hfw
        have h1 := (doLogFileWrite_cases hfw).1
        have h3 : (if 0 < nf then flushReclaim s else s).curr = s.curr := by
          split
          · exact (flushReclaim_frame s).2.2.2.2.2.2.2.1
          · rfl
        rw [h3] at h1
        exact absurd hc h1
    · rw [h2] at h
      rw [if_neg (by omega)] at h
      split at h
      · exact absurd h (by simp)
      · rename_i s5 w5 hfw
        have h1 := (doLogFileWrite_cases hfw).1
        have h3 : (if 0 < nf then flushReclaim { s with fend := fqIncr s.fqsz s.fend }
            else { s with fend := fqIncr s.fqsz s.fend }).curr = s.curr := by
          split
          · exact (flushReclaim_frame _).2.2.2.2.2.2.2.1
          · rfl
        rw [h3] at h1
        exact absurd hc h1
    · rw [h2, hnf] at h
      simp at h
      obtain ⟨h4, -, h5⟩ := h
      exact ⟨h5.symm, h4.symm⟩

theorem acquireInv : ∀ {fuel t : Nat} {s s1 : LogState},
    C1Inv s → acquireLoop fuel t s = some s1 → C1Inv s1 := by
  intro fuel
  induction fuel with
  | zero => intro t s s1 _ h; exact absurd h (by simp [acquireLoop])
  | succ fuel ih =>
    intro t s s1 hinv h
    unfold acquireLoop at h
    split at h
    · exact absurd h (by simp)
    · rename_i sa hta
      simp only [Option.some.injEq] at h
      subst h
      obtain ⟨a1, a2, a3, a4, a5, a6, a7, a8, a9, a10, a11⟩ := tryAcquire_frame hta
      obtain ⟨i1, i2, i3, i4, i5, i6⟩ := hinv
      exact ⟨by rw [a7]; exact i1, by rw [a8]; exact i2, by rw [a6]; exact i3,
             by rw [a10]; exact i4, by rw [a11]; exact i5, by rw [a9]; exact i6⟩
    · rename_i sa hta
      split at h
      · exact absurd h (by simp)
      · rename_i n2 w2 s2 hfl
        obtain ⟨a1, a2, a3, a4, a5, a6, a7, a8, a9, a10, a11⟩ := tryAcquire_frame hta
        obtain ⟨i1, i2, i3, i4, i5, i6⟩ := hinv
        have hinva : C1Inv sa :=
          ⟨by rw [a7]; exact i1, by rw [a8]; exact i2, by rw [a6]; exact i3,
           by rw [a10]; exact i4, by rw [a11]; exact i5, by rw [a9]; exact i6⟩
        obtain ⟨h2, -⟩ := flushNoopInv hinva hfl
        subst h2
        exact ih hinva h

theorem writeInv {fuel bl : Nat} {d : Bool} {s s' : LogState} {st : LogSN}
    (hinv : C1Inv s) (h : doLogBuffWrite fuel bl d s = some (s', st)) : C1Inv s' := by
  unfold doLogBuffWrite at h
  simp only [] at h
  split at h
  · split at h
    · exact absurd h (by simp)
    · rename_i s1 hacq
      split at h
      · exact absurd h (by simp)
      · rename_i s4 happ
        simp only [Option.some.injEq, Prod.mk.injEq] at h
        obtain ⟨h5, -⟩ := h
        subst h5
        have hinv1 := acquireInv hinv hacq
        obtain ⟨i1, i2, i3, i4, i5, i6⟩ := hinv1
        obtain ⟨b1, b2, b3, b4, b5, b6, b7, b8, b9, b10, b11, b12⟩ := appendLoop_frame happ
        obtain ⟨c1, c2, c3, c4, c5, c6, c7, c8, c9, c10, c11, c12, c13⟩ :=
          flagClose_frame d (writeCommit (sizeofLogHdr + bl) s1)
        refine ⟨?_, ?_, ?_, ?_, ?_, ?_⟩
        · rw [congrArg FState.fd b8, congrArg FState.fd c9]; exact i1
        · rw [congrArg FState.fd b9, congrArg FState.fd c10]; exact i2
        · rw [b7, c8]; exact i3
        · rw [b11, c12]; exact i4
        · rw [b12, c13]; exact i5
        · rw [b10, c11]; exact i6
  · exact absurd h (by simp)

theorem bufferFlushInv : ∀ {fuel : Nat} {upto : LogSN} {s s' : LogState},
    C1Inv s → logBufferFlush fuel upto s = some s' → s' = s := by
  intro fuel
  induction fuel with
  | zero => intro upto s s' _ h; exact absurd h (by simp [logBufferFlush])
  | succ fuel ih =>
    intro upto s s' hinv h
    unfold logBufferFlush at h
    split at h
    · split at h
      · exact absurd h (by simp)
      · rename_i nf wr s1 hfl
        obtain ⟨h2, h3⟩ := flushNoopInv hinv hfl
        subst h2
        subst h3
        exact absurd h (by simp)
    · simp only [Option.some.injEq] at h
      exact h.symm

theorem fileSyncInv {s s' : LogState} (hinv : C1Inv s) (h : logFileSync s = some s') :
    False := by
  unfold logFileSync at h
  simp only [] at h
  rw [if_pos hinv.1] at h
  exact absurd h (by simp)

theorem completeDWInv {b : Bool} {s s' : LogState} {c : Option Int}
    (hinv : C1Inv s) (h : cmdlogCompleteDualWrite b s = some (s', c)) : s' = s := by
  unfold cmdlogCompleteDualWrite at h
  rw [if_pos hinv.2.1] at h
  simp only [Option.some.injEq, Prod.mk.injEq] at h
  exact h.1.symm

theorem c1InvStep {s s' : LogState} (hinv : C1Inv s) (hstep : LogStep s s') : C1Inv s' := by
  cases hstep with
  | record_write fuel bl d h => exact writeInv hinv h
  | flush_once a h => rw [(flushNoopInv hinv h).1]; exact hinv
  | buffer_flush fuel upto h => rw [bufferFlushInv hinv h]; exact hinv
  | file_sync h => exact absurd h (fun hh => fileSyncInv hinv hh)
  | complete_dual_write b h => rw [completeDWInv hinv h]; exact hinv

theorem c1InvReachable {s : LogState} (h : LogReachable s) : C1Inv s := by
  induction h with
  | init => exact ⟨rfl, rfl, rfl, rfl, rfl, rfl⟩
  | step _ hstep ih => exact c1InvStep ih hstep

/-- C1: LSN ordering invariant.  At every state reachable from init by any
sequence of `record_write`, `flush_once`, `buffer_flush`, `file_sync` and
`complete_dual_write` operations,
`nxt_fsync_lsn ≤ nxt_flush_lsn ≤ nxt_write_lsn` in the lexicographic order
on `(filenum, roffset)`.  (With exactly these five operations available no
log file is ever prepared, so the flush and fsync LSNs stay at `(1,0)` while
the write LSN advances within filenum 1.) -/
theorem cmdlog_lsn_order_invariant {s : LogState} (h : LogReachable s) :
    logsnLE s.nxt_fsync_lsn s.nxt_flush_lsn = true ∧
    logsnLE s.nxt_flush_lsn s.nxt_write_lsn = true := by
  obtain ⟨-, -, -, i4, i5, i6⟩ := c1InvReachable h
  constructor
  · rw [i4, i5]
    simp [logsnLE]
  · rw [i4]
    simp [logsnLE, i6]

/-- Witness for C1: the initial state is reachable and satisfies the
ordering. -/
theorem cmdlog_lsn_order_invariant_witness :
    logsnLE cmdlogBufInit.nxt_fsync_lsn cmdlogBufInit.nxt_flush_lsn = true ∧
    logsnLE cmdlogBufInit.nxt_flush_lsn cmdlogBufInit.nxt_write_lsn = true :=
  cmdlog_lsn_order_invariant LogReachable.init

/-! ## C7: recovery via cmdlog_file_apply -/

/-- Result of the external codec's redo hook (`lrec_redo_from_record`):
success, `ENGINE_ENOMEM` (fatal for recovery), or any other error (logged
and ignored by `cmdlog_file_apply`). -/
inductive RedoRes where
  | success : RedoRes
  | enomem : RedoRes
  | othererr : RedoRes
deriving DecidableEq, Repr

/-- Serialized form of one record: header bytes then body bytes. -/
def encodeRec (r : List Nat × List Nat) : List Nat := r.1 ++ r.2

/-- A file content that is a concatenation of records. -/
def encodeRecs (rs : List (List Nat × List Nat)) : List Nat :=
  rs.foldr (fun r acc => encodeRec r ++ acc) []

/-- The record-reading loop of `cmdlog_file_apply` (lines 681-744).  `M` is
`MAX_LOG_RECORD_SIZE` and `bodyLen` decodes `body_length` from the header
bytes (both live in the codec, outside this file's source).  The stream
position is `(seek, rem)` with `rem` the bytes at and after `seek`; `size` is
the `fstat` size.  Returns `(ret, seek_offset, redo calls made in order)`;
fuel only cuts the loop, which always terminates on real inputs. -/
def fileApplyLoop (M : Nat) (bodyLen : List Nat → Nat)
    (redo : List Nat → List Nat → RedoRes) :
    Nat → Nat → Nat → List Nat → List (List Nat × List Nat) →
    Option (Int × Nat × List (List Nat × List Nat))
  | 0, _, _, _, _ => none
  | fuel + 1, size, seek, rem, acc =>
    if seek < size then
      if size - seek < sizeofLogHdr then some (0, seek, acc)
      else
        let hdr := rem.take sizeofLogHdr
        let seek1 := seek + sizeofLogHdr
        let rem1 := rem.drop sizeofLogHdr
        let bl := bodyLen hdr
        if size - seek1 < bl then some (0, seek1 - sizeofLogHdr, acc)
        else if 0 < bl then
          if M - sizeofLogHdr < bl then some (-1, seek1, acc)
          else
            let body := rem1.take bl
            match redo hdr body with
            | RedoRes.enomem => some (-1, seek1 + bl, acc ++ [(hdr, body)])
            | _ => fileApplyLoop M bodyLen redo fuel size (seek1 + bl) (rem1.drop bl)
                     (acc ++ [(hdr, body)])
        else fileApplyLoop M bodyLen redo fuel size seek1 rem1 acc
    else some (0, seek, acc)

/-- Outcome of `cmdlog_file_apply`: return value, whether the descriptor was
closed (the `ret < 0` path), the final `curr.size`, and the redo calls. -/
structure ApplyOut where
  ret : Int
  closedFd : Bool
  currSize : Nat
  redone : List (List Nat × List Nat)
deriving DecidableEq, Repr

/-- `cmdlog_file_apply` on a quiesced file given as its byte list:
`fstat` establishes the size (empty file returns immediately); the loop
replays records; on failure the fd is closed, otherwise `curr.size` is set
to the final seek offset. -/
def cmdlogFileApply (M : Nat) (bodyLen : List Nat → Nat)
    (redo : List Nat → List Nat → RedoRes) (file : List Nat) : Option ApplyOut :=
  if file.length = 0 then some ⟨0, false, 0, []⟩
  else
    (fileApplyLoop M bodyLen redo (file.length + 1) file.length 0 file []).map
      (fun r => if r.1 < 0 then ⟨r.1, true, file.length, r.2.2⟩
                else ⟨r.1, false, r.2.1, r.2.2⟩)

/-- Well-formed complete records: 8-byte headers whose decoded body length
matches, positive bodies within the record-size bound, and a redo hook that
does not report out-of-memory on them. -/
def RecsWF (M : Nat) (bodyLen : List Nat → Nat)
    (redo : List Nat → List Nat → RedoRes) (rs : List (List Nat × List Nat)) : Prop :=
  ∀ r ∈ rs, r.1.length = sizeofLogHdr ∧ bodyLen r.1 = r.2.length ∧ 0 < r.2.length ∧
    r.2.length ≤ M - sizeofLogHdr ∧ redo r.1 r.2 ≠ RedoRes.enomem

theorem encodeRecs_cons (h b : List Nat) (rs : List (List Nat × List Nat)) :
    encodeRecs ((h, b) :: rs) = (h ++ b) ++ encodeRecs rs := by
  simp [encodeRecs, encodeRec]

theorem fileApplyLoop_succ (M : Nat) (bodyLen : List Nat → Nat)
    (redo : List Nat → List Nat → RedoRes) (fuel size seek : Nat) (rem : List Nat)
    (acc : List (List Nat × List Nat)) :
    fileApplyLoop M bodyLen redo (fuel + 1) size seek rem acc =
      (if seek < size then
        if size - seek < sizeofLogHdr then some (0, seek, acc)
        else
          if size - (seek + sizeofLogHdr) < bodyLen (rem.take sizeofLogHdr) then
            some (0, seek + sizeofLogHdr - sizeofLogHdr, acc)
          else if 0 < bodyLen (rem.take sizeofLogHdr) then
            if M - sizeofLogHdr < bodyLen (rem.take sizeofLogHdr) then
              some (-1, seek + sizeofLogHdr, acc)
            else
              match redo (rem.take sizeofLogHdr)
                  ((rem.drop sizeofLogHdr).take (bodyLen (rem.take sizeofLogHdr))) with
              | RedoRes.enomem =>
                some (-1, seek + sizeofLogHdr + bodyLen (rem.take sizeofLogHdr),
                  acc ++ [(rem.take sizeofLogHdr,
                           (rem.drop sizeofLogHdr).take (bodyLen (rem.take sizeofLogHdr)))])
              | _ =>
                fileApplyLoop M bodyLen redo fuel size
                  (seek + sizeofLogHdr + bodyLen (rem.take sizeofLogHdr))
                  ((rem.drop sizeofLogHdr).drop (bodyLen (rem.take sizeofLogHdr)))
                  (acc ++ [(rem.take sizeofLogHdr,
                            (rem.drop sizeofLogHdr).take (bodyLen (rem.take sizeofLogHdr)))])
          else
            fileApplyLoop M bodyLen redo fuel size (seek + sizeofLogHdr)
              (rem.drop sizeofLogHdr) acc
      else some (0, seek, acc)) := rfl

theorem fileApplyLoop_skip (M : Nat) (bodyLen : List Nat → Nat)
    (redo : List Nat → List Nat → RedoRes) :
    ∀ (rs : List (List Nat × List Nat)) (rest : List Nat) (fuel seek size : Nat)
      (acc : List (List Nat × List Nat)),
    size = seek + (encodeRecs rs).length + rest.length →
    RecsWF M bodyLen redo rs →
    fileApplyLoop M bodyLen redo (fuel + rs.length) size seek (encodeRecs rs ++ rest) acc =
      fileApplyLoop M bodyLen redo fuel size (seek + (encodeRecs rs).length) rest (acc ++ rs) := by
  intro rs
  induction rs with
  | nil => intro rest fuel seek size acc hsz hwf; simp [encodeRecs]
  | cons r rs ih =>
    intro rest fuel seek size acc hsz hwf
    obtain ⟨h, b⟩ := r
    obtain ⟨wh, wbl, wpos, wmax, wredo⟩ := hwf (h, b) (List.mem_cons_self _ _)
    simp only [] at wh wbl wpos wmax wredo
    rw [encodeRecs_cons] at hsz ⊢
    simp only [List.length_append] at hsz
    have hlen : (encodeRecs ((h, b) :: rs)).length =
        h.length + b.length + (encodeRecs rs).length := by
      rw [encodeRecs_cons]; simp; omega
    have hstep : fuel + ((h, b) :: rs).length = (fuel + rs.length) + 1 := by simp; omega
    rw [hstep, fileApplyLoop_succ]
    have htk : ((h ++ b) ++ encodeRecs rs ++ rest).take sizeofLogHdr = h := by
      rw [List.append_assoc, List.append_assoc]
      exact List.take_left' wh
    have hdp : ((h ++ b) ++ encodeRecs rs ++ rest).drop sizeofLogHdr =
        b ++ (encodeRecs rs ++ rest) := by
      rw [List.append_assoc, List.append_assoc]
      exact List.drop_left' wh
    rw [htk, hdp, wbl]
    rw [if_pos (by omega)]
    rw [if_neg (by omega)]
    rw [if_neg (by omega)]
    rw [if_pos wpos]
    rw [if_neg (by omega)]
    have htk2 : (b ++ (encodeRecs rs ++ rest)).take b.length = b := List.take_left _ _
    have hdp2 : (b ++ (encodeRecs rs ++ rest)).drop b.length = encodeRecs rs ++ rest :=
      List.drop_left _ _
    rw [htk2, hdp2]
    have e1 : seek + sizeofLogHdr + b.length + (encodeRecs rs).length =
        seek + (h.length + b.length + (encodeRecs rs).length) := by omega
    have e2 : (acc ++ [(h, b)]) ++ rs = acc ++ (h, b) :: rs := by simp
    have e3 : (h ++ b ++ encodeRecs rs).length =
        h.length + b.length + (encodeRecs rs).length := by
      rw [List.length_append, List.length_append]
    rcases hredo : redo h b with - | - | -
    · show fileApplyLoop M bodyLen redo (fuel + rs.length) size
          (seek + sizeofLogHdr + b.length) (encodeRecs rs ++ rest) (acc ++ [(h, b)]) = _
      rw [ih rest fuel (seek + sizeofLogHdr + b.length) size (acc ++ [(h, b)])
          (by omega) (fun r hr => hwf r (List.mem_cons_of_mem _ hr))]
      rw [e1, e2, e3]
    · exact absurd hredo wredo
    · show fileApplyLoop M bodyLen redo (fuel + rs.length) size
          (seek + sizeofLogHdr + b.length) (encodeRecs rs ++ rest) (acc ++ [(h, b)]) = _
      rw [ih rest fuel (seek + sizeofLogHdr + b.length) size (acc ++ [(h, b)])
          (by omega) (fun r hr => hwf r (List.mem_cons_of_mem _ hr))]
      rw [e1, e2, e3]

/-- A torn tail as left by a crash: empty, a short header (fewer than 8
bytes), or a complete header whose body was cut short. -/
def TornTail (bodyLen : List Nat → Nat) (tail : List Nat) : Prop :=
  tail = [] ∨ (0 < tail.length ∧ tail.length < sizeofLogHdr) ∨
  ∃ h p, tail = h ++ p ∧ h.length = sizeofLogHdr ∧ p.length < bodyLen h

theorem encodeRecs_length_lb (M : Nat) (bodyLen : List Nat → Nat)
    (redo : List Nat → List Nat → RedoRes) (rs : List (List Nat × List Nat))
    (hwf : RecsWF M bodyLen redo rs) :
    9 * rs.length ≤ (encodeRecs rs).length := by
  induction rs with
  | nil => simp [encodeRecs]
  | cons r rs ih =>
    obtain ⟨h, b⟩ := r
    obtain ⟨wh, wbl, wpos, _, _⟩ := hwf (h, b) (List.mem_cons_self _ _)
    simp only [] at wh wbl wpos
    have hrec := ih (fun r hr => hwf r (List.mem_cons_of_mem _ hr))
    rw [encodeRecs_cons]
    simp only [List.length_append, List.length_cons]
    have e8 : sizeofLogHdr = 8 := rfl
    omega

theorem fileApplyLoop_tail_stop (M : Nat) (bodyLen : List Nat → Nat)
    (redo : List Nat → List Nat → RedoRes) (fuel seek : Nat) (tail : List Nat)
    (acc : List (List Nat × List Nat)) (ht : TornTail bodyLen tail) :
    fileApplyLoop M bodyLen redo (fuel + 1) (seek + tail.length) seek tail acc =
      some (0, seek, acc) := by
  have e8 : sizeofLogHdr = 8 := rfl
  rw [fileApplyLoop_succ]
  rcases ht with rfl | ⟨h1, h2⟩ | ⟨h, p, rfl, hh, hp⟩
  · simp
  · rw [if_pos (by omega), if_pos (by omega)]
  · rw [if_pos (by simp only [List.length_append, hh, e8]; omega)]
    rw [if_neg (by simp only [List.length_append, hh, e8]; omega)]
    rw [List.take_left' hh, List.drop_left' hh]
    rw [if_pos (by simp only [List.length_append, hh, e8]; omega)]
    simp

theorem fileApplyLoop_oversize (M : Nat) (bodyLen : List Nat → Nat)
    (redo : List Nat → List Nat → RedoRes) (fuel seek : Nat) (h p : List Nat)
    (acc : List (List Nat × List Nat)) (hh : h.length = sizeofLogHdr)
    (hov : M - sizeofLogHdr < bodyLen h) (hpl : bodyLen h ≤ p.length) :
    fileApplyLoop M bodyLen redo (fuel + 1) (seek + sizeofLogHdr + p.length) seek
        (h ++ p) acc =
      some (-1, seek + sizeofLogHdr, acc) := by
  have e8 : sizeofLogHdr = 8 := rfl
  have hbl : 0 < bodyLen h := by omega
  rw [fileApplyLoop_succ]
  rw [if_pos (by simp only [e8]; omega)]
  rw [if_neg (by simp only [e8]; omega)]
  rw [List.take_left' hh, List.drop_left' hh]
  rw [if_neg (by omega)]
  rw [if_pos hbl]
  rw [if_pos hov]

theorem fileApplyLoop_enomem (M : Nat) (bodyLen : List Nat → Nat)
    (redo : List Nat → List Nat → RedoRes) (fuel seek : Nat) (h b rest : List Nat)
    (acc : List (List Nat × List Nat)) (hh : h.length = sizeofLogHdr)
    (hbl : bodyLen h = b.length) (hmax : b.length ≤ M - sizeofLogHdr)
    (hred : redo h b = RedoRes.enomem) (hpos : 0 < b.length) :
    fileApplyLoop M bodyLen redo (fuel + 1)
        (seek + sizeofLogHdr + b.length + rest.length) seek (h ++ (b ++ rest)) acc =
      some (-1, seek + sizeofLogHdr + b.length, acc ++ [(h, b)]) := by
  rw [fileApplyLoop_succ]
  rw [if_pos (by omega)]
  rw [if_neg (by omega)]
  rw [List.take_left' hh, List.drop_left' hh]
  rw [hbl]
  rw [if_neg (by omega)]
  rw [if_pos hpos]
  rw [if_neg (by omega)]
  rw [List.take_left, hred]

theorem cmdlogFileApply_eq_loop (M : Nat) (bodyLen : List Nat → Nat)
    (redo : List Nat → List Nat → RedoRes) (rs : List (List Nat × List Nat))
    (t : List Nat) (hwf : RecsWF M bodyLen redo rs)
    (hne : ¬ (encodeRecs rs ++ t).length = 0) :
    ∃ F, cmdlogFileApply M bodyLen redo (encodeRecs rs ++ t) =
      (fileApplyLoop M bodyLen redo (F + 1) ((encodeRecs rs).length + t.length)
          (encodeRecs rs).length t rs).map
        (fun r => if r.1 < 0 then
            ApplyOut.mk r.1 true (encodeRecs rs ++ t).length r.2.2
          else ApplyOut.mk r.1 false r.2.1 r.2.2) := by
  have lb := encodeRecs_length_lb M bodyLen redo rs hwf
  have hlen : (encodeRecs rs ++ t).length = (encodeRecs rs).length + t.length :=
    List.length_append _ _
  refine ⟨(encodeRecs rs ++ t).length - rs.length, ?_⟩
  unfold cmdlogFileApply
  rw [if_neg hne]
  have hF : (encodeRecs rs ++ t).length + 1 =
      ((encodeRecs rs ++ t).length - rs.length + 1) + rs.length := by omega
  rw [hF]
  rw [fileApplyLoop_skip M bodyLen redo rs t
      ((encodeRecs rs ++ t).length - rs.length + 1) 0 (encodeRecs rs ++ t).length []
      (by omega) hwf]
  simp only [Nat.zero_add, List.nil_append, hlen]

/-- C7: file_apply recovery.  For every file content that is a concatenation
of complete well-formed records `rs` (8-byte headers, matching decoded body
lengths, bodies within the record-size bound, redo never out-of-memory)
followed by a torn tail, `cmdlog_file_apply` replays exactly the records of
`rs` through the redo hook in order and returns 0, stopping cleanly on the
short header or short body; on a short body it seeks back by the header
length, so `curr.size` is the offset of the complete prefix in every clean
case.  If instead the bytes after `rs` begin with a header whose
body_length exceeds MAX_LOG_RECORD_SIZE - sizeof(LogHdr) (with enough bytes
left that the short-body exit does not fire first), it returns -1 and
closes the fd; likewise if they begin with a complete record on which redo
reports out of memory, it returns -1 after that redo call and closes the
fd (cmdlogbuf.c lines 661-752). -/
theorem file_apply_recovery_spec (M : Nat) (bodyLen : List Nat → Nat)
    (redo : List Nat → List Nat → RedoRes) (rs : List (List Nat × List Nat))
    (hwf : RecsWF M bodyLen redo rs) :
    (∀ tail, TornTail bodyLen tail →
      cmdlogFileApply M bodyLen redo (encodeRecs rs ++ tail) =
        some (ApplyOut.mk 0 false (encodeRecs rs).length rs)) ∧
    (∀ h p, h.length = sizeofLogHdr → M - sizeofLogHdr < bodyLen h →
      bodyLen h ≤ p.length →
      cmdlogFileApply M bodyLen redo (encodeRecs rs ++ (h ++ p)) =
        some (ApplyOut.mk (-1) true (encodeRecs rs ++ (h ++ p)).length rs)) ∧
    (∀ h b rest, h.length = sizeofLogHdr → bodyLen h = b.length →
      b.length ≤ M - sizeofLogHdr → redo h b = RedoRes.enomem → 0 < b.length →
      cmdlogFileApply M bodyLen redo (encodeRecs rs ++ (h ++ (b ++ rest))) =
        some (ApplyOut.mk (-1) true (encodeRecs rs ++ (h ++ (b ++ rest))).length
          (rs ++ [(h, b)]))) := by
  have e8 : sizeofLogHdr = 8 := rfl
  have lb := encodeRecs_length_lb M bodyLen redo rs hwf
  refine ⟨?_, ?_, ?_⟩
  · intro tail ht
    by_cases hfe : (encodeRecs rs ++ tail).length = 0
    · have hlen : (encodeRecs rs).length + tail.length = 0 := by
        rw [← List.length_append]; exact hfe
      have hrs : rs = [] := by
        cases rs with
        | nil => rfl
        | cons r rs => simp [List.length_cons] at lb; omega
      subst hrs
      have htl : tail = [] := List.eq_nil_of_length_eq_zero (by omega)
      subst htl
      simp [cmdlogFileApply, encodeRecs]
    · obtain ⟨F, hF⟩ := cmdlogFileApply_eq_loop M bodyLen redo rs tail hwf hfe
      rw [hF, fileApplyLoop_tail_stop M bodyLen redo F (encodeRecs rs).length tail rs ht]
      simp
  · intro h p hh hov hpl
    have hne : ¬ (encodeRecs rs ++ (h ++ p)).length = 0 := by
      simp only [List.length_append, hh, e8]; omega
    obtain ⟨F, hF⟩ := cmdlogFileApply_eq_loop M bodyLen redo rs (h ++ p) hwf hne
    rw [hF]
    have e1 : (encodeRecs rs).length + (h ++ p).length =
        (encodeRecs rs).length + sizeofLogHdr + p.length := by
      simp only [List.length_append, hh]; omega
    rw [e1, fileApplyLoop_oversize M bodyLen redo F (encodeRecs rs).length h p rs
        hh hov hpl]
    simp
  · intro h b rest hh hbl hmax hred hpos
    have hne : ¬ (encodeRecs rs ++ (h ++ (b ++ rest))).length = 0 := by
      simp only [List.length_append, hh, e8]; omega
    obtain ⟨F, hF⟩ := cmdlogFileApply_eq_loop M bodyLen redo rs (h ++ (b ++ rest)) hwf hne
    rw [hF]
    have e1 : (encodeRecs rs).length + (h ++ (b ++ rest)).length =
        (encodeRecs rs).length + sizeofLogHdr + b.length + rest.length := by
      simp only [List.length_append, hh]; omega
    rw [e1, fileApplyLoop_enomem M bodyLen redo F (encodeRecs rs).length h b rest rs
        hh hbl hmax hred hpos]
    simp

/-- Witness codec: body_length is the header's first byte. -/
def wBodyLen : List Nat → Nat := fun hdr => hdr.headD 0

/-- Witness redo hook: out of memory exactly when the header starts with 2. -/
def wRedo : List Nat → List Nat → RedoRes :=
  fun hdr _ => if hdr.headD 0 = 2 then RedoRes.enomem else RedoRes.success

/-- Witness record list: one record, 8-byte header declaring a 1-byte body. -/
def wRecs : List (List Nat × List Nat) := [([1, 0, 0, 0, 0, 0, 0, 0], [5])]

theorem file_apply_recovery_spec_witness :
    RecsWF 100 wBodyLen wRedo wRecs ∧
    cmdlogFileApply 100 wBodyLen wRedo (encodeRecs wRecs ++ [7, 7]) =
      some (ApplyOut.mk 0 false (encodeRecs wRecs).length wRecs) ∧
    cmdlogFileApply 100 wBodyLen wRedo
        (encodeRecs wRecs ++ ([93, 0, 0, 0, 0, 0, 0, 0] ++ List.replicate 93 0)) =
      some (ApplyOut.mk (-1) true
        (encodeRecs wRecs ++ ([93, 0, 0, 0, 0, 0, 0, 0] ++ List.replicate 93 0)).length
        wRecs) ∧
    cmdlogFileApply 100 wBodyLen wRedo
        (encodeRecs wRecs ++ ([2, 0, 0, 0, 0, 0, 0, 0] ++ ([9, 9] ++ []))) =
      some (ApplyOut.mk (-1) true
        (encodeRecs wRecs ++ ([2, 0, 0, 0, 0, 0, 0, 0] ++ ([9, 9] ++ []))).length
        (wRecs ++ [([2, 0, 0, 0, 0, 0, 0, 0], [9, 9])])) := by
  have hwf : RecsWF 100 wBodyLen wRedo wRecs := by unfold RecsWF; decide
  refine ⟨hwf, ?_, ?_, ?_⟩
  · exact (file_apply_recovery_spec 100 wBodyLen wRedo wRecs hwf).1 [7, 7]
      (by unfold TornTail; right; left; decide)
  · exact (file_apply_recovery_spec 100 wBodyLen wRedo wRecs hwf).2.1
      [93, 0, 0, 0, 0, 0, 0, 0] (List.replicate 93 0) (by decide) (by decide) (by decide)
  · exact (file_apply_recovery_spec 100 wBodyLen wRedo wRecs hwf).2.2
      [2, 0, 0, 0, 0, 0, 0, 0] [9, 9] [] (by decide) (by decide) (by decide)
      (by decide) (by decide)

/-! ## C5: flush-request slot invariant -/

/-- All queue slots obey the `CMDLOG_FLUSH_AUTO_SIZE` cap. -/
def fqueCaps (s : LogState) : Prop :=
  ∀ i, (s.fque i).nflush ≤ CMDLOG_FLUSH_AUTO_SIZE

/-- `k` successive ring increments of a queue index. -/
def fqAddN (m i : Nat) : Nat → Nat
  | 0 => i
  | k + 1 => fqAddN m (fqIncr m i) k

/-- Total number of bytes recorded across the whole flush-request queue. -/
def sumNflush (s : LogState) : Nat :=
  ∑ i ∈ Finset.range s.fqsz, (s.fque i).nflush

/-- The byte count taken by one iteration of the append loop (lines 365-366):
the tail slot's spare capacity, clipped to the remaining length. -/
def spareOf (total : Nat) (s : LogState) : Nat :=
  let spare0 := CMDLOG_FLUSH_AUTO_SIZE - (s.fque s.fend).nflush
  if total ≤ spare0 then total else spare0

/-- The state transformation of one iteration of the append loop (lines
368-372): add the spare to the tail slot, stamp the flag, and advance `fend`
when the slot is exactly full. -/
def appendStep (total : Nat) (d : Bool) (s : LogState) : LogState :=
  let nf := (s.fque s.fend).nflush + spareOf total s
  let s1 : LogState := { s with fque := fqueSet s.fque s.fend ⟨nf, d⟩ }
  if nf = CMDLOG_FLUSH_AUTO_SIZE then { s1 with fend := fqIncr s1.fqsz s1.fend } else s1

theorem appendLoop_step_eq (fuel total : Nat) (d : Bool) (s : LogState) :
    appendLoop (fuel + 1) total d s =
      if total = 0 then some s
      else appendLoop fuel (total - spareOf total s) d (appendStep total d s) := rfl

theorem fqIncr_lt {m i : Nat} (hm : 0 < m) (hi : i < m) : fqIncr m i < m := by
  unfold fqIncr; split <;> omega

theorem fqAddN_eq_mod (m : Nat) (hm : 0 < m) :
    ∀ (k i : Nat), i < m → fqAddN m i k = (i + k) % m := by
  intro k
  induction k with
  | zero => intro i hi; simp [fqAddN, Nat.mod_eq_of_lt hi]
  | succ k ih =>
    intro i hi
    show fqAddN m (fqIncr m i) k = (i + (k + 1)) % m
    rw [ih (fqIncr m i) (fqIncr_lt hm hi)]
    unfold fqIncr
    split
    · rename_i he
      have : i + (k + 1) = m + k := by omega
      rw [this, Nat.add_mod_left, Nat.zero_add]
    · have : i + 1 + k = i + (k + 1) := by omega
      rw [this]

theorem fqAddN_lt {m i : Nat} (hm : 0 < m) (hi : i < m) (k : Nat) :
    fqAddN m i k < m := by
  rw [fqAddN_eq_mod m hm k i hi]
  exact Nat.mod_lt _ hm

theorem fqAddN_ne_base {m i k : Nat} (hi : i < m) (hk0 : 0 < k) (hkm : k < m) :
    fqAddN m i k ≠ i := by
  rw [fqAddN_eq_mod m (by omega) k i hi]
  intro hcontra
  have hsplit : (i + k) % m = if i + k < m then i + k else i + k - m := by
    split
    · exact Nat.mod_eq_of_lt (by omega)
    · rw [Nat.mod_eq_sub_mod (by omega), Nat.mod_eq_of_lt (by omega)]
  rw [hsplit] at hcontra
  split at hcontra <;> omega

theorem sum_fqueSet (m e : Nat) (f : Nat → FReq) (v : FReq) (he : e < m) :
    (∑ i ∈ Finset.range m, (fqueSet f e v i).nflush) + (f e).nflush =
      (∑ i ∈ Finset.range m, (f i).nflush) + v.nflush := by
  have hmem : e ∈ Finset.range m := Finset.mem_range.mpr he
  have h1 := (Finset.add_sum_erase (Finset.range m)
    (fun i => (fqueSet f e v i).nflush) hmem).symm
  have h2 := (Finset.add_sum_erase (Finset.range m) (fun i => (f i).nflush) hmem).symm
  have h3 : ∑ i ∈ (Finset.range m).erase e, (fqueSet f e v i).nflush =
      ∑ i ∈ (Finset.range m).erase e, (f i).nflush :=
    Finset.sum_congr rfl (fun i hi => by
      unfold fqueSet
      rw [if_neg (Finset.ne_of_mem_erase hi)])
  have h4 : (fqueSet f e v e).nflush = v.nflush := by
    unfold fqueSet
    rw [if_pos rfl]
  rw [h1, h2, h3, h4]
  omega

theorem appendStep_fque (t : Nat) (d : Bool) (s : LogState) :
    (appendStep t d s).fque =
      fqueSet s.fque s.fend ⟨(s.fque s.fend).nflush + spareOf t s, d⟩ := by
  unfold appendStep
  dsimp only
  split <;> rfl

theorem appendStep_frame (t : Nat) (d : Bool) (s : LogState) :
    (appendStep t d s).fqsz = s.fqsz ∧ (appendStep t d s).fbgn = s.fbgn ∧
    (appendStep t d s).head = s.head ∧ (appendStep t d s).tail = s.tail ∧
    (appendStep t d s).size = s.size ∧ (appendStep t d s).last = s.last ∧
    (appendStep t d s).dw_end = s.dw_end ∧ (appendStep t d s).curr = s.curr ∧
    (appendStep t d s).next = s.next := by
  unfold appendStep
  dsimp only
  split <;> simp

theorem appendStep_fend (t : Nat) (d : Bool) (s : LogState) :
    ((s.fque s.fend).nflush + spareOf t s = CMDLOG_FLUSH_AUTO_SIZE →
      (appendStep t d s).fend = fqIncr s.fqsz s.fend) ∧
    ((s.fque s.fend).nflush + spareOf t s ≠ CMDLOG_FLUSH_AUTO_SIZE →
      (appendStep t d s).fend = s.fend) := by
  unfold appendStep
  dsimp only
  split <;> constructor <;> intro hc <;> simp_all

theorem appendLoop_caps : ∀ {fuel t : Nat} {d : Bool} {s s' : LogState},
    appendLoop fuel t d s = some s' → fqueCaps s → fqueCaps s' := by
  intro fuel
  induction fuel with
  | zero =>
    intro t d s s' h hc
    unfold appendLoop at h
    split at h
    · simp only [Option.some.injEq] at h; subst h; exact hc
    · exact absurd h (by simp)
  | succ fuel ih =>
    intro t d s s' h hc
    rw [appendLoop_step_eq] at h
    split at h
    · simp only [Option.some.injEq] at h; subst h; exact hc
    · refine ih h ?_
      intro i
      rw [appendStep_fque]
      unfold fqueSet
      split
      · have hcap : CMDLOG_FLUSH_AUTO_SIZE = 32768 := rfl
        have he := hc s.fend
        unfold spareOf
        simp only []
        split <;> omega
      · exact hc i

theorem appendLoop_mono : ∀ {fuel t : Nat} {d : Bool} {s s' : LogState},
    appendLoop fuel t d s = some s' →
    ∀ i, (s.fque i).nflush ≤ (s'.fque i).nflush := by
  intro fuel
  induction fuel with
  | zero =>
    intro t d s s' h i
    unfold appendLoop at h
    split at h
    · simp only [Option.some.injEq] at h; subst h; exact Nat.le_refl _
    · exact absurd h (by simp)
  | succ fuel ih =>
    intro t d s s' h i
    rw [appendLoop_step_eq] at h
    split at h
    · simp only [Option.some.injEq] at h; subst h; exact Nat.le_refl _
    · refine Nat.le_trans ?_ (ih h i)
      rw [appendStep_fque]
      unfold fqueSet
      split
      · rename_i hie
        subst hie
        simp only []
        omega
      · exact Nat.le_refl _

theorem appendLoop_sum : ∀ {fuel t : Nat} {d : Bool} {s s' : LogState},
    appendLoop fuel t d s = some s' → 0 < s.fqsz → s.fend < s.fqsz →
    sumNflush s' = sumNflush s + t := by
  intro fuel
  induction fuel with
  | zero =>
    intro t d s s' h hm he
    unfold appendLoop at h
    split at h
    · rename_i ht
      simp only [Option.some.injEq] at h
      subst h ht
      rfl
    · exact absurd h (by simp)
  | succ fuel ih =>
    intro t d s s' h hm he
    rw [appendLoop_step_eq] at h
    split at h
    · rename_i ht
      simp only [Option.some.injEq] at h
      subst h ht
      rfl
    · rename_i ht
      obtain ⟨f1, f2, -⟩ := appendStep_frame t d s
      have hm2 : 0 < (appendStep t d s).fqsz := by omega
      have he2 : (appendStep t d s).fend < (appendStep t d s).fqsz := by
        rcases appendStep_fend t d s with ⟨ha, hb⟩
        by_cases hfull : (s.fque s.fend).nflush + spareOf t s = CMDLOG_FLUSH_AUTO_SIZE
        · rw [ha hfull, f1]; exact fqIncr_lt hm he
        · rw [hb hfull, f1]; exact he
      have hsum2 := ih h hm2 he2
      have hstep : sumNflush (appendStep t d s) + (s.fque s.fend).nflush =
          sumNflush s + ((s.fque s.fend).nflush + spareOf t s) := by
        unfold sumNflush
        rw [f1, appendStep_fque]
        exact sum_fqueSet s.fqsz s.fend s.fque _ he
      have hspare : spareOf t s ≤ t := by
        unfold spareOf
        simp only []
        split <;> omega
      omega

theorem fqueSet_self (f : Nat → FReq) (e : Nat) (v : FReq) : fqueSet f e v e = v := by
  unfold fqueSet
  rw [if_pos rfl]

theorem fqueSet_other (f : Nat → FReq) (e : Nat) (v : FReq) {i : Nat} (hi : i ≠ e) :
    fqueSet f e v i = f i := by
  unfold fqueSet
  rw [if_neg hi]

theorem fqueSet_ne_imp {f : Nat → FReq} {e : Nat} {v : FReq} {i : Nat}
    (hne : fqueSet f e v i ≠ f i) : i = e := by
  by_cases hie : i = e
  · exact hie
  · exact absurd (fqueSet_other f e v hie) hne

theorem appendLoop_zero (fuel : Nat) (d : Bool) (s : LogState) :
    appendLoop fuel 0 d s = some s := by
  cases fuel <;> rfl

theorem appendLoop_flags : ∀ {fuel total : Nat} {d : Bool} {s s' : LogState},
    appendLoop fuel total d s = some s' →
    0 < s.fqsz → s.fend < s.fqsz → total < s.fqsz →
    (s.fque s.fend).nflush < CMDLOG_FLUSH_AUTO_SIZE →
    ((s.fque s.fend).nflush = 0 ∨ (s.fque s.fend).dual_write = d) →
    (∀ k, k < total → (s.fque (fqAddN s.fqsz s.fend (k + 1))).nflush = 0) →
    ∀ i, s'.fque i ≠ s.fque i →
      (s'.fque i).dual_write = d ∧
      ((s.fque i).nflush = 0 ∨ (s.fque i).dual_write = d) ∧
      (s'.fque i).nflush ≤ CMDLOG_FLUSH_AUTO_SIZE ∧
      ∃ k, k ≤ total ∧ i = fqAddN s.fqsz s.fend k := by
  intro fuel
  induction fuel with
  | zero =>
    intro total d s s' h hm he ht hlt hflag hfresh i hchg
    unfold appendLoop at h
    split at h
    · simp only [Option.some.injEq] at h
      subst h
      exact absurd rfl hchg
    · exact absurd h (by simp)
  | succ fuel ih =>
    intro total d s s' h hm he ht hlt hflag hfresh i hchg
    have hcap : CMDLOG_FLUSH_AUTO_SIZE = 32768 := rfl
    rw [appendLoop_step_eq] at h
    split at h
    · simp only [Option.some.injEq] at h
      subst h
      exact absurd rfl hchg
    · rename_i ht0
      have hsp_pos : 0 < spareOf total s := by
        unfold spareOf
        simp only []
        split <;> omega
      have hsp_le : spareOf total s ≤ total := by
        unfold spareOf
        simp only []
        split <;> omega
      have hnf_le : (s.fque s.fend).nflush + spareOf total s ≤ CMDLOG_FLUSH_AUTO_SIZE := by
        unfold spareOf
        simp only []
        split <;> omega
      have hs2q := appendStep_fque total d s
      by_cases htz : total - spareOf total s = 0
      · rw [htz, appendLoop_zero] at h
        simp only [Option.some.injEq] at h
        subst h
        rw [hs2q] at hchg
        have hie : i = s.fend := fqueSet_ne_imp hchg
        subst hie
        rw [hs2q, fqueSet_self]
        exact ⟨rfl, hflag, hnf_le, 0, Nat.zero_le _, rfl⟩
      · have hsp_lt : spareOf total s < total := by omega
        have hfull : (s.fque s.fend).nflush + spareOf total s = CMDLOG_FLUSH_AUTO_SIZE := by
          have : spareOf total s = total ∨
              (s.fque s.fend).nflush + spareOf total s = CMDLOG_FLUSH_AUTO_SIZE := by
            unfold spareOf
            simp only []
            split
            · left; rfl
            · right; omega
          rcases this with hc | hc
          · omega
          · exact hc
        have hfend2 : (appendStep total d s).fend = fqIncr s.fqsz s.fend :=
          (appendStep_fend total d s).1 hfull
        obtain ⟨f1, f2, -⟩ := appendStep_frame total d s
        have htot2 : 2 ≤ total := by omega
        have hge2 : 2 ≤ s.fqsz := by omega
        have hne1 : fqIncr s.fqsz s.fend ≠ s.fend := by
          have : fqAddN s.fqsz s.fend 1 ≠ s.fend :=
            fqAddN_ne_base he (by omega) (by omega)
          exact this
        have hslot1 : (s.fque (fqIncr s.fqsz s.fend)).nflush = 0 := by
          have := hfresh 0 (by omega)
          exact this
        have hm2 : 0 < (appendStep total d s).fqsz := by omega
        have he2 : (appendStep total d s).fend < (appendStep total d s).fqsz := by
          rw [hfend2, f1]
          exact fqIncr_lt hm he
        have ht2 : total - spareOf total s < (appendStep total d s).fqsz := by omega
        have hq2 : ∀ j, j ≠ s.fend → (appendStep total d s).fque j = s.fque j := by
          intro j hj
          rw [hs2q, fqueSet_other _ _ _ hj]
        have hlt2 : ((appendStep total d s).fque (appendStep total d s).fend).nflush <
            CMDLOG_FLUSH_AUTO_SIZE := by
          rw [hfend2, hq2 _ hne1, hslot1]
          omega
        have hflag2 : ((appendStep total d s).fque (appendStep total d s).fend).nflush = 0 ∨
            ((appendStep total d s).fque (appendStep total d s).fend).dual_write = d := by
          left
          rw [hfend2, hq2 _ hne1]
          exact hslot1
        have hfresh2 : ∀ k, k < total - spareOf total s →
            ((appendStep total d s).fque
              (fqAddN (appendStep total d s).fqsz (appendStep total d s).fend (k + 1))).nflush
              = 0 := by
          intro k hk
          rw [f1, hfend2]
          have hshift : fqAddN s.fqsz (fqIncr s.fqsz s.fend) (k + 1) =
              fqAddN s.fqsz s.fend (k + 2) := rfl
          rw [hshift]
          have hne2 : fqAddN s.fqsz s.fend (k + 2) ≠ s.fend :=
            fqAddN_ne_base he (by omega) (by omega)
          rw [hq2 _ hne2]
          exact hfresh (k + 1) (by omega)
        by_cases hc2 : s'.fque i = (appendStep total d s).fque i
        · have hchg2 : (appendStep total d s).fque i ≠ s.fque i := by
            rw [← hc2]; exact hchg
          rw [hs2q] at hchg2
          have hie : i = s.fend := fqueSet_ne_imp hchg2
          subst hie
          rw [hc2, hs2q, fqueSet_self]
          exact ⟨rfl, hflag, hnf_le, 0, Nat.zero_le _, rfl⟩
        · obtain ⟨g1, g2, g3, k, hk, hkeq⟩ := ih h hm2 he2 ht2 hlt2 hflag2 hfresh2 i hc2
          refine ⟨g1, ?_, g3, ?_⟩
          · by_cases hie : i = s.fend
            · subst hie; exact hflag
            · rw [← hq2 _ hie]; exact g2
          · refine ⟨k + 1, by omega, ?_⟩
            rw [f1, hfend2] at hkeq
            exact hkeq

theorem spareOf_pos {t : Nat} {s : LogState} (ht : 0 < t)
    (hlt : (s.fque s.fend).nflush < CMDLOG_FLUSH_AUTO_SIZE) : 0 < spareOf t s := by
  unfold spareOf
  simp only []
  split <;> omega

theorem appendLoop_split {fuel total : Nat} {d : Bool} {s s' : LogState}
    (h : appendLoop fuel total d s = some s')
    (hm : 0 < s.fqsz) (he : s.fend < s.fqsz) (ht : total < s.fqsz)
    (hlt : (s.fque s.fend).nflush < CMDLOG_FLUSH_AUTO_SIZE)
    (hflag : (s.fque s.fend).nflush = 0 ∨ (s.fque s.fend).dual_write = d)
    (hfresh : ∀ k, k < total → (s.fque (fqAddN s.fqsz s.fend (k + 1))).nflush = 0)
    (hsplit : CMDLOG_FLUSH_AUTO_SIZE - (s.fque s.fend).nflush < total) :
    (s'.fque s.fend).nflush = CMDLOG_FLUSH_AUTO_SIZE ∧
    0 < (s'.fque (fqAddN s.fqsz s.fend 1)).nflush := by
  have hcap : CMDLOG_FLUSH_AUTO_SIZE = 32768 := rfl
  have ht0 : total ≠ 0 := by omega
  have hflags := appendLoop_flags h hm he ht hlt hflag hfresh
  cases fuel with
  | zero => exact absurd h (by unfold appendLoop; rw [if_neg ht0]; simp)
  | succ fuel =>
    rw [appendLoop_step_eq, if_neg ht0] at h
    have hsp : spareOf total s = CMDLOG_FLUSH_AUTO_SIZE - (s.fque s.fend).nflush := by
      unfold spareOf
      simp only []
      rw [if_neg (by omega)]
    have hfull : (s.fque s.fend).nflush + spareOf total s = CMDLOG_FLUSH_AUTO_SIZE := by
      omega
    have hs2q := appendStep_fque total d s
    have hfend2 : (appendStep total d s).fend = fqIncr s.fqsz s.fend :=
      (appendStep_fend total d s).1 hfull
    have htot2 : 2 ≤ total := by omega
    have hne1 : fqIncr s.fqsz s.fend ≠ s.fend := by
      have h1 : fqAddN s.fqsz s.fend 1 ≠ s.fend := fqAddN_ne_base he (by omega) (by omega)
      exact h1
    have hslot1 : (s.fque (fqIncr s.fqsz s.fend)).nflush = 0 := hfresh 0 (by omega)
    have htz : 0 < total - spareOf total s := by omega
    have hsq2 : ((appendStep total d s).fque (appendStep total d s).fend).nflush = 0 := by
      rw [hfend2, hs2q, fqueSet_other _ _ _ hne1]
      exact hslot1
    constructor
    · have hmono := appendLoop_mono h s.fend
      rw [hs2q, fqueSet_self] at hmono
      simp only [] at hmono
      have hchg : s'.fque s.fend ≠ s.fque s.fend := by
        intro hc
        rw [hc] at hmono
        omega
      obtain ⟨-, -, g3, -⟩ := hflags s.fend hchg
      omega
    · cases fuel with
      | zero => exact absurd h (by unfold appendLoop; rw [if_neg (by omega)]; simp)
      | succ fuel2 =>
        rw [appendLoop_step_eq, if_neg (by omega)] at h
        have hmono2 := appendLoop_mono h (appendStep total d s).fend
        rw [appendStep_fque, fqueSet_self] at hmono2
        simp only [] at hmono2
        rw [hsq2] at hmono2
        have hsp2 : 0 < spareOf (total - spareOf total s) (appendStep total d s) :=
          spareOf_pos htz (by rw [hsq2]; omega)
        have hidx : fqAddN s.fqsz s.fend 1 = (appendStep total d s).fend := by
          rw [hfend2]
          rfl
        rw [hidx]
        omega

theorem doLogBuffFlush_caps {a : Bool} {s : LogState} {n : Nat} {w : List Int}
    {s' : LogState} (h : doLogBuffFlush a s = some (n, w, s')) (hc : fqueCaps s) :
    fqueCaps s' := by
  unfold doLogBuffFlush at h
  split at h
  · exact absurd h (by simp)
  · rename_i nf df s2 hsel
    simp only [] at h
    have hbq : (flushBoundary s).fque = s.fque := by
      unfold flushBoundary
      split <;> rfl
    have hs2q : s2.fque = s.fque := by
      rcases flushSelect_cases hsel with ⟨-, -, -, -, h2⟩ | ⟨-, -, -, -, h2⟩ |
        ⟨-, -, -, -, h2⟩ <;> (subst h2; simp_all)
    have hs4q : ∀ (c1 c2 : Prop) (i1 : Decidable c1) (i2 : Decidable c2),
        (if c1 then flushFilenumBump (if c2 then flushReclaim s2 else s2)
         else (if c2 then flushReclaim s2 else s2)).fque = s2.fque := by
      intro c1 c2 i1 i2
      have hr := (flushReclaim_frame s2).2.2.1
      split <;> split <;> simp_all [flushFilenumBump]
    split at h
    · simp only [Option.some.injEq, Prod.mk.injEq] at h
      obtain ⟨-, -, h3⟩ := h
      subst h3
      intro i
      rw [hs4q, hs2q]
      exact hc i
    · split at h
      · exact absurd h (by simp)
      · rename_i s5 w5 hfw
        simp only [Option.some.injEq, Prod.mk.injEq] at h
        obtain ⟨-, -, h3⟩ := h
        subst h3
        have hs5q : s5.fque =
            (if (s.fbgn : Int) = s.dw_end
             then flushFilenumBump (if 0 < nf then flushReclaim s2 else s2)
             else (if 0 < nf then flushReclaim s2 else s2)).fque := by
          split at hfw
          · split at hfw
            · obtain ⟨-, hcases⟩ := doLogFileWrite_cases hfw
              rcases hcases with ⟨-, -, h5, -⟩ | ⟨-, h5, -⟩ <;> (subst h5; rfl)
            · simp only [Option.some.injEq, Prod.mk.injEq] at hfw
              obtain ⟨h5, -⟩ := hfw
              subst h5
              rfl
          · obtain ⟨-, hcases⟩ := doLogFileWrite_cases hfw
            rcases hcases with ⟨-, -, h5, -⟩ | ⟨-, h5, -⟩ <;> (subst h5; rfl)
        intro i
        rw [flushConsume_fque]
        unfold fqueSet
        split
        · exact Nat.zero_le _
        · rw [hs5q, hs4q, hs2q]
          exact hc i

theorem acquireLoop_caps : ∀ {fuel t : Nat} {s s1 : LogState},
    acquireLoop fuel t s = some s1 → fqueCaps s → fqueCaps s1 := by
  intro fuel
  induction fuel with
  | zero => intro t s s1 h hc; exact absurd h (by simp [acquireLoop])
  | succ fuel ih =>
    intro t s s1 h hc
    unfold acquireLoop at h
    split at h
    · exact absurd h (by simp)
    · rename_i sa hta
      simp only [Option.some.injEq] at h
      subst h
      intro i
      rw [(tryAcquire_frame hta).2.2.1]
      exact hc i
    · rename_i sa hta
      split at h
      · exact absurd h (by simp)
      · rename_i n2 w2 s2 hfl
        have hca : fqueCaps sa := by
          intro i
          rw [(tryAcquire_frame hta).2.2.1]
          exact hc i
        exact ih h (doLogBuffFlush_caps hfl hca)

theorem doLogBuffWrite_caps {fuel bl : Nat} {d : Bool} {s s' : LogState} {lsn : LogSN}
    (h : doLogBuffWrite fuel bl d s = some (s', lsn)) (hc : fqueCaps s) :
    fqueCaps s' := by
  unfold doLogBuffWrite at h
  dsimp only at h
  split at h
  · split at h
    · exact absurd h (by simp)
    · rename_i s1 hacq
      split at h
      · exact absurd h (by simp)
      · rename_i s4 happ
        simp only [Option.some.injEq, Prod.mk.injEq] at h
        obtain ⟨h1, -⟩ := h
        subst h1
        have hc1 : fqueCaps s1 := acquireLoop_caps hacq hc
        have hc3 : fqueCaps (flagClose d (writeCommit (sizeofLogHdr + bl) s1)) := by
          intro i
          rw [(flagClose_frame d _).2.2.2.2.1]
          exact hc1 i
        exact appendLoop_caps happ hc3
  · exact absurd h (by simp)

theorem tryAcquire_wrap {t : Nat} {s : LogState}
    (h1 : s.head ≤ s.tail) (h2 : s.last = -1) (h3 : ¬ t < s.size - s.tail)
    (h4 : 0 < s.head) :
    tryAcquire t s = some
      ({ s with last := (s.tail : Int), tail := 0,
                fend := if 0 < (s.fque s.fend).nflush then fqIncr s.fqsz s.fend
                        else s.fend },
       if t < s.head then true else false) := by
  unfold tryAcquire
  rw [if_pos h1, if_neg (by simp [h2]), if_neg h3, if_pos h4]
  dsimp only
  split <;> simp_all

/-- C5: flush-request slot invariant (do_log_buff_write lines 317-374).
Four parts, following the code's mechanisms.
(1) Cap: a full `record_write` keeps every queue slot's `nflush` at most
CMDLOG_FLUSH_AUTO_SIZE (32768), for any fuel, including the forced internal
flushes (which only empty slots).
(2) Flag closure (lines 359-362): `flagClose` never changes slot contents;
a non-empty tail slot whose `dual_write` flag differs from the record's is
closed (fend advances) before any byte is appended, and otherwise the state
is untouched — so bytes with a different flag never mix into an open slot.
(3) Wrap contiguity (lines 324-332): when the ring wraps (`head ≤ tail`,
no space at the top, `head > 0`), the buffer records `last ← tail`,
`tail ← 0`, and the tail slot is closed first exactly when it is non-empty —
a slot therefore never covers bytes on both sides of the wrap, keeping every
slot's range contiguous in `data`.
(4) Append loop (lines 363-374): from a tail slot that is below the cap and
empty-or-matching in flag, with the slots ahead of `fend` empty (they are in
the queue's free region, cleared by flush consumption), the loop adds exactly
`total` bytes to the queue; every slot it changes ends up flagged with the
record's `dual_write`, was empty or already matching before, respects the
cap, and lies in the consecutive run starting at `fend`; and a record larger
than the tail slot's spare capacity fills that slot to exactly 32768 and
spills the remainder into the next consecutive slot (the split of a long
record across consecutive slots). -/
theorem flush_slot_invariant_preserved :
    (∀ (fuel bl : Nat) (d : Bool) (s s' : LogState) (lsn : LogSN),
      doLogBuffWrite fuel bl d s = some (s', lsn) → fqueCaps s → fqueCaps s') ∧
    (∀ (d : Bool) (s : LogState),
      (flagClose d s).fque = s.fque ∧
      (0 < (s.fque s.fend).nflush ∧ (s.fque s.fend).dual_write ≠ d →
        (flagClose d s).fend = fqIncr s.fqsz s.fend) ∧
      ((s.fque s.fend).nflush = 0 ∨ (s.fque s.fend).dual_write = d →
        flagClose d s = s)) ∧
    (∀ (t : Nat) (s : LogState), s.head ≤ s.tail → s.last = -1 →
      ¬ t < s.size - s.tail → 0 < s.head →
      tryAcquire t s = some
        ({ s with last := (s.tail : Int), tail := 0,
                  fend := if 0 < (s.fque s.fend).nflush then fqIncr s.fqsz s.fend
                          else s.fend },
         if t < s.head then true else false)) ∧
    (∀ (fuel total : Nat) (d : Bool) (s s' : LogState),
      appendLoop fuel total d s = some s' →
      0 < s.fqsz → s.fend < s.fqsz → total < s.fqsz →
      (s.fque s.fend).nflush < CMDLOG_FLUSH_AUTO_SIZE →
      ((s.fque s.fend).nflush = 0 ∨ (s.fque s.fend).dual_write = d) →
      (∀ k, k < total → (s.fque (fqAddN s.fqsz s.fend (k + 1))).nflush = 0) →
      sumNflush s' = sumNflush s + total ∧
      (∀ i, s'.fque i ≠ s.fque i →
        (s'.fque i).dual_write = d ∧
        ((s.fque i).nflush = 0 ∨ (s.fque i).dual_write = d) ∧
        (s'.fque i).nflush ≤ CMDLOG_FLUSH_AUTO_SIZE ∧
        ∃ k, k ≤ total ∧ i = fqAddN s.fqsz s.fend k) ∧
      (CMDLOG_FLUSH_AUTO_SIZE - (s.fque s.fend).nflush < total →
        (s'.fque s.fend).nflush = CMDLOG_FLUSH_AUTO_SIZE ∧
        0 < (s'.fque (fqAddN s.fqsz s.fend 1)).nflush)) := by
  refine ⟨?_, ?_, ?_, ?_⟩
  · intro fuel bl d s s' lsn h hc
    exact doLogBuffWrite_caps h hc
  · intro d s
    refine ⟨(flagClose_frame d s).2.2.2.2.1, ?_, ?_⟩
    · intro hcnd
      unfold flagClose
      rw [if_pos hcnd]
    · intro hd
      unfold flagClose
      rw [if_neg ?_]
      rcases hd with hd | hd
      · simp [hd]
      · simp [hd]
  · intro t s h1 h2 h3 h4
    exact tryAcquire_wrap h1 h2 h3 h4
  · intro fuel total d s s' h hm he ht hlt hflag hfresh
    have hfr := appendLoop_frame h
    refine ⟨?_, appendLoop_flags h hm he ht hlt hflag hfresh, ?_⟩
    · exact appendLoop_sum h hm he
    · intro hs
      exact appendLoop_split h hm he ht hlt hflag hfresh hs

/-- Witness state for the cap conjunct: fresh buffer with a prepared file. -/
def sW5a : LogState :=
  { size := 100, head := 0, tail := 0, last := -1,
    fque := fun _ => ⟨0, false⟩, fqsz := 16, fbgn := 0, fend := 0,
    dw_end := -1, curr := ⟨3, false, 0⟩, next := ⟨-1, false, 0⟩,
    nxt_write_lsn := ⟨1, 0⟩, nxt_flush_lsn := ⟨1, 0⟩, nxt_fsync_lsn := ⟨1, 0⟩ }

/-- Result of writing one 8-byte-body record into `sW5a`. -/
def sW5a' : LogState :=
  { sW5a with tail := 16, nxt_write_lsn := ⟨1, 16⟩,
              fque := fqueSet sW5a.fque 0 ⟨16, true⟩ }

/-- Witness state for the flag-closure conjunct: non-empty tail slot flagged
`false`. -/
def sW5b : LogState :=
  { sW5a with fque := fun i => if i = 2 then ⟨5, false⟩ else ⟨0, false⟩,
              fbgn := 2, fend := 2 }

/-- Witness state for the wrap conjunct: `head ≤ tail`, no space at the top,
non-empty tail slot. -/
def sW5c : LogState :=
  { sW5a with head := 20, tail := 90,
              fque := fun i => if i = 2 then ⟨7, true⟩ else ⟨0, false⟩,
              fbgn := 2, fend := 2,
              nxt_write_lsn := ⟨1, 90⟩, nxt_flush_lsn := ⟨1, 70⟩,
              nxt_fsync_lsn := ⟨1, 70⟩ }

/-- Witness state for the append conjunct: tail slot 8 bytes below the cap. -/
def sW5d : LogState :=
  { sW5a with fque := fun i => if i = 1 then ⟨32760, true⟩ else ⟨0, false⟩,
              fbgn := 1, fend := 1 }

/-- Result of appending a 10-byte record to `sW5d`: the tail slot fills to
32768 and the remaining 2 bytes open the next slot. -/
def sW5d' : LogState :=
  { sW5d with fque := fqueSet (fqueSet sW5d.fque 1 ⟨32768, true⟩) 2 ⟨2, true⟩,
              fend := 2 }

theorem flush_slot_invariant_preserved_witness :
    fqueCaps sW5a ∧
    doLogBuffWrite 1 8 true sW5a = some (sW5a', ⟨1, 0⟩) ∧
    fqueCaps sW5a' ∧
    (flagClose true sW5b).fque = sW5b.fque ∧
    (flagClose true sW5b).fend = fqIncr sW5b.fqsz sW5b.fend ∧
    tryAcquire 16 sW5c = some
      ({ sW5c with last := (sW5c.tail : Int), tail := 0,
                   fend := if 0 < (sW5c.fque sW5c.fend).nflush
                           then fqIncr sW5c.fqsz sW5c.fend else sW5c.fend },
       if 16 < sW5c.head then true else false) ∧
    appendLoop 3 10 true sW5d = some sW5d' ∧
    sumNflush sW5d' = sumNflush sW5d + 10 ∧
    (sW5d'.fque sW5d.fend).nflush = CMDLOG_FLUSH_AUTO_SIZE ∧
    0 < (sW5d'.fque (fqAddN sW5d.fqsz sW5d.fend 1)).nflush := by
  have hcapsA : fqueCaps sW5a := fun i => Nat.zero_le _
  have hw : doLogBuffWrite 1 8 true sW5a = some (sW5a', ⟨1, 0⟩) := rfl
  have ha : appendLoop 3 10 true sW5d = some sW5d' := rfl
  have h4 := flush_slot_invariant_preserved.2.2.2 3 10 true sW5d sW5d' ha
    (by decide) (by decide) (by decide) (by decide) (Or.inr (by decide)) (by decide)
  refine ⟨hcapsA, hw, ?_, ?_, ?_, ?_, ha, h4.1, ?_, ?_⟩
  · exact flush_slot_invariant_preserved.1 1 8 true sW5a sW5a' ⟨1, 0⟩ hw hcapsA
  · exact (flush_slot_invariant_preserved.2.1 true sW5b).1
  · exact (flush_slot_invariant_preserved.2.1 true sW5b).2.1 (by decide)
  · exact flush_slot_invariant_preserved.2.2.1 16 sW5c (by decide) rfl
      (by decide) (by decide)
  · exact (h4.2.2 (by decide)).1
  · exact (h4.2.2 (by decide)).2
